import Mathlib

/-!
# ssfsm: a small finite-state-machine engine

A shallow embedding of `fsm.go` (package `ssfsm`) and a verification of its
`Trigger` and `NewFSM` operations.

Modelling conventions.

* A Go `map[string]V` is a function `String → Option V` (`GoMap V`); `make` is the
  everywhere-`none` function and `m[k] = v` is a point update. The graph is never
  iterated, so iteration order of the graph is not observable.
* The `Table` handed to `NewFSM` is iterated (`for gk, gv := range table`), so it is a
  list of entries and the list order is the order in which the loop visits them.
* `mx *chan struct{}` is `Option Bool`: `none` is the nil pointer, `some b` is the
  capacity-one channel, `b` telling whether its single buffer slot is occupied.
* A callback `func(*FSM, Transition)` is a function from the transition it is handed
  to a `Prog`: a well-founded tree of the interactions the callback has with the
  engine it is handed (read `state`, write `state`, call `Trigger`, panic, return).
  Callbacks that replace `mx` or `graph`, that recover from a panic, or that block
  are outside this model; the source never writes `mx` or `graph` after `NewFSM`.
* `Trigger` takes a bound on the depth of nested `Trigger` calls; `none` means the
  bound was exceeded (a callback chain that re-enters `Trigger` too deep). A result
  obtained within a bound is the result within every larger bound (`Trigger_mono`).
* An `error` is recorded by the format string handed to `fmt.Errorf`; the three
  errors of `Trigger` are told apart by that string. Its message is the format as
  package `fmt` renders it without operands (`fmtNoOperands`, a model of the library
  on the formats without flags, widths, precisions and argument indexes).
-/

namespace ssfsm

/-- Transition represents a transition (`type Transition struct`). -/
structure Transition where
  Event : String
  From : String
  To : String
  deriving DecidableEq, Repr

/-- An `error` value built by `fmt.Errorf` from a format string and no operands,
recorded by the format string it was built from. -/
structure error where
  format : String
  deriving DecidableEq, Repr

/-- The call `fmt.Errorf(format)` with no operands. -/
def Errorf (format : String) : error := ⟨format⟩

/-- The body of a callback, as the tree of its interactions with the engine it was
handed: `ret` returns, `getState k` reads `sm.state` and goes on with `k`,
`setState s k` assigns `sm.state = s`, `trigger event k` calls `sm.Trigger(event)`
and goes on with `k` applied to the returned error (`none` is `nil`), `panic v`
panics with value `v`. -/
inductive Prog where
  | ret : Prog
  | getState (k : String → Prog) : Prog
  | setState (s : String) (k : Prog) : Prog
  | trigger (event : String) (k : Option error → Prog) : Prog
  | panic (v : String) : Prog

/-- A callback `func(*FSM, Transition)`: the engine argument is the engine the
program runs on, the transition argument is explicit. -/
abbrev Callback := Transition → Prog

/-- The graph entry `type next struct`; `callback = none` is the nil func. -/
structure next where
  transition : Transition
  callback : Option Callback

/-- A Go map with string keys. -/
abbrev GoMap (ν : Type) := String → Option ν

/-- The empty map `make(map[string]V)`. -/
def GoMap.make {ν : Type} : GoMap ν := fun _ => none

/-- The assignment `m[k] = v`. -/
def GoMap.set {ν : Type} (m : GoMap ν) (k : String) (v : ν) : GoMap ν :=
  fun k' => if k' = k then some v else m k'

/-- FSM is a finite state machine (`type FSM struct`). -/
structure FSM where
  mx : Option Bool
  state : String
  graph : GoMap (GoMap next)

/-- How a call of `Trigger` ends: it returns an error value (`none` is `nil`), or a
panic raised in a callback unwinds through it. -/
inductive Outcome where
  | returned (err : Option error) : Outcome
  | panicked (v : String) : Outcome

/-- What a call of `Trigger` leaves behind: the engine after the call, how the call
ended, and the callbacks that were invoked during the call, in order, each recorded
by the transition it was handed. -/
structure Result where
  sm : FSM
  out : Outcome
  calls : List Transition

/-- What a run of a callback leaves behind: the engine, the panic value if it
panicked, and the callbacks invoked by nested `Trigger` calls. -/
structure Done where
  sm : FSM
  panicv : Option String
  calls : List Transition

/-- Runs a callback body on the engine `sm`, with `trig` as the engine's `Trigger`
method. A panic of a nested `Trigger` call unwinds through the callback. -/
def Prog.run (trig : FSM → String → Option Result) : Prog → FSM → Option Done
  | .ret, sm => some ⟨sm, none, []⟩
  | .getState k, sm => Prog.run trig (k sm.state) sm
  | .setState s k, sm => Prog.run trig k { sm with state := s }
  | .trigger event k, sm =>
    match trig sm event with
    | none => none
    | some ⟨sm1, .panicked v, c1⟩ => some ⟨sm1, some v, c1⟩
    | some ⟨sm1, .returned err, c1⟩ =>
      match Prog.run trig (k err) sm1 with
      | none => none
      | some ⟨sm2, p, c2⟩ => some ⟨sm2, p, c1 ++ c2⟩
  | .panic v, sm => some ⟨sm, some v, []⟩

/-- The send `*sm.mx <- struct{}{}` of `Trigger`, taken when the engine is guarded
(`held`) and the slot is free: it fills the channel's slot. -/
def lock (held : Bool) (s : FSM) : FSM :=
  if held then { s with mx := some true } else s

/-- The deferred `<-*sm.mx` of `Trigger`, registered when `held` (the send succeeded):
it empties the channel's slot. -/
def unlock (held : Bool) (s : FSM) : FSM :=
  if held then { s with mx := some false } else s

/-- The deferred auto-advance of `Trigger`:
`if starting != sm.state { return }; sm.state = nx.transition.To`. -/
def advance (starting : String) (nx : next) (s : FSM) : FSM :=
  if starting ≠ s.state then s else { s with state := nx.transition.To }

/-- Trigger triggers an event (`func (sm *FSM) Trigger(event string) error`). The first
argument bounds the depth of nested `Trigger` calls. Deferred functions run last
registered first: the auto-advance, then the release of the slot. -/
def Trigger : Nat → FSM → String → Option Result
  | 0, _, _ => none
  | n + 1, sm, event =>
    if sm.mx = some true then
      some ⟨sm, .returned (some (Errorf "another transition is in progress")), []⟩
    else
      let held := sm.mx.isSome
      let sm0 : FSM := lock held sm
      match sm0.graph event with
      | none =>
        some ⟨unlock held sm0, .returned (some (Errorf ("event not found: " ++ event))), []⟩
      | some vx =>
        match vx sm0.state with
        | none =>
          some ⟨unlock held sm0,
            .returned (some (Errorf ("no state found for event: " ++ event
              ++ " current state: " ++ sm0.state))), []⟩
        | some nx =>
          let starting := sm0.state
          match nx.callback with
          | none => some ⟨unlock held (advance starting nx sm0), .returned none, []⟩
          | some cb =>
            match Prog.run (Trigger n) (cb nx.transition) sm0 with
            | none => none
            | some d =>
              some ⟨unlock held (advance starting nx d.sm),
                match d.panicv with
                | none => .returned none
                | some v => .panicked v,
                nx.transition :: d.calls⟩

/-- Table represents a transition table between states
(`type Table map[Transition]func(*FSM, Transition)`), as the list of its entries in
the order the `range` loop of `NewFSM` visits them. -/
abbrev Table := List (Transition × Option Callback)

/-- One iteration of the loop of `NewFSM`. -/
def NewFSM.step (graph : GoMap (GoMap next)) (entry : Transition × Option Callback) :
    GoMap (GoMap next) :=
  let gk := entry.1
  let gv := entry.2
  let vx : GoMap next :=
    match graph gk.Event with
    | some vx => vx
    | none => GoMap.make
  let vx := vx.set gk.From ⟨gk, gv⟩
  graph.set gk.Event vx

/-- The loop `for gk, gv := range table` of `NewFSM`, in state-passing form: the state
is the pair of the variables the body can reach, the graph built so far and the table
being ranged over. The body assigns to `vx` and to `graph` only, so each iteration
hands the table on as it received it. -/
def NewFSM.loop (table : Table) : GoMap (GoMap next) × Table :=
  table.foldl (fun st entry => (NewFSM.step st.1 entry, st.2)) (GoMap.make, table)

/-- NewFSM creates an instance of FSM (`func NewFSM(async bool, state string, table Table) *FSM`):
it runs the loop and builds the engine from the graph the loop leaves. -/
def NewFSM (async : Bool) (state : String) (table : Table) : FSM :=
  let graph := (NewFSM.loop table).1
  let res : FSM := { mx := none, state := state, graph := graph }
  if async then { res with mx := some false } else res

/-- The entry the two lookups of `Trigger` find for `event` at the current state:
`graph[event][sm.state]`, `none` when either lookup misses. -/
def FSM.lookup (sm : FSM) (event : String) : Option next :=
  match sm.graph event with
  | none => none
  | some vx => vx sm.state

/-- The entry `graph[event][src]` of a graph, `none` when either lookup misses. -/
def entryAt (graph : GoMap (GoMap next)) (event src : String) : Option next :=
  match graph event with
  | none => none
  | some vx => vx src

/-- Whether a table entry is keyed by the event `e` and the source state `f`. -/
def keyed (e f : String) (x : Transition × Option Callback) : Prop :=
  x.1.Event = e ∧ x.1.From = f

/-- No two entries of the table share the same `(event, from)` pair. -/
def distinctKeys (table : Table) : Prop :=
  table.Pairwise (fun a b => ¬ (a.1.Event = b.1.Event ∧ a.1.From = b.1.From))

/-- A finite sequence of `Trigger` calls made one after the other on the same engine,
each within the nesting bound `n`; the result is the engine after the last call. -/
def TriggerSeq (n : Nat) : FSM → List String → Option FSM
  | sm, [] => some sm
  | sm, e :: es =>
    match Trigger n sm e with
    | none => none
    | some r => TriggerSeq n r.sm es

/-- The engine `sm` with the callback of the entry `nx`, found in the row `vx` of the
event `e` at the current state, replaced by `cb`. -/
def replaceCallback (sm : FSM) (e : String) (vx : GoMap next) (nx : next)
    (cb : Option Callback) : FSM :=
  { sm with graph := sm.graph.set e (vx.set sm.state ⟨nx.transition, cb⟩) }

/-- Modelled from the documentation of Go's package `fmt`, which is not part of this
repository: the text `fmt.Sprintf(format)` yields when it is given no operands, for
the formats in which every `%` is the last character (`%!(NOVERB)` is written), is
followed by `%` (a single `%` is written) or is followed directly by its verb `v`
(`%!v(MISSING)` is written, no operand being left for the verb); all other characters
are copied. Formats with a flag, a width, a precision or an argument index after a
`%` are outside this fragment and give `none`. -/
def fmtNoOperands : List Char → Option (List Char)
  | [] => some []
  | c :: rest =>
    if c ≠ '%' then (fmtNoOperands rest).map (c :: ·)
    else
      match rest with
      | [] => some "%!(NOVERB)".data
      | v :: rest' =>
        if v = '%' then (fmtNoOperands rest').map ('%' :: ·)
        else if v ∈ ['#', '0', '+', '-', ' ', '1', '2', '3', '4', '5', '6', '7', '8', '9',
            '.', '*', '['] then none
        else (fmtNoOperands rest').map (fun out => '%' :: '!' :: v :: "(MISSING)".data ++ out)

/-- The message `err.Error()` of an error built by `fmt.Errorf` with no operands: the
format string as `fmt` renders it. -/
def error.Error (err : error) : Option String :=
  (fmtNoOperands err.format.data).map String.mk

/-- The callback of the entry that `Trigger event` matches on `sm`, when the two
lookups find an entry and it has a callback, returns normally within the nesting
bound `n`: run on the engine with its slot taken, it ends and it does not panic. -/
def callbackReturns (n : Nat) (sm : FSM) (event : String) : Prop :=
  ∀ nx cb, sm.lookup event = some nx → nx.callback = some cb →
    ∃ d, Prog.run (Trigger n) (cb nx.transition) (lock sm.mx.isSome sm) = some d
      ∧ d.panicv = none

/-! ## Concrete tables and engines used as examples -/

/-- The graph row holding the single entry `t ↦ cb` under `t.From`. -/
def row (t : Transition) (cb : Option Callback) : GoMap next :=
  GoMap.set GoMap.make t.From ⟨t, cb⟩

/-- The table of the spec's examples `{(on, idle, running): nil}`. -/
def onTable : Table := [(⟨"on", "idle", "running"⟩, none)]

/-- A callback that does unrelated work: it returns without touching the engine. -/
def doorCb : Callback := fun _ => .ret

/-- The table `{(open, closed, open): cb}` of the spec's example. -/
def doorTable : Table := [(⟨"open", "closed", "open"⟩, some doorCb)]

/-- A callback that sets the engine's current state to `interrupted`. -/
def pauseCb : Callback := fun _ => .setState "interrupted" .ret

/-- The table `{(pause, running, paused): cb}` of the spec's example. -/
def pauseTable : Table := [(⟨"pause", "running", "paused"⟩, some pauseCb)]

/-- A guarded door engine whose slot is held (a `Trigger` call is in flight). -/
def heldDoor : FSM := lock true (NewFSM true "closed" doorTable)

/-- A guarded pause engine whose slot is held (a `Trigger` call is in flight). -/
def heldPause : FSM := lock true (NewFSM true "running" pauseTable)

/-- A callback that panics. -/
def panicCb : Callback := fun _ => .panic "boom"

/-- A guarded engine whose slot is held and whose only transition has a panicking
callback. -/
def heldPanic : FSM := lock true (NewFSM true "s" [(⟨"go", "s", "t"⟩, some panicCb)])

/-- A callback that calls `Trigger(e2)` on its own engine and returns. -/
def reentrantCb (e2 : String) : Callback := fun _ => .trigger e2 (fun _ => .ret)

/-- The table `{(a, s, t): cb}` whose callback calls `Trigger("b")` on its own engine. -/
def reentrantTable : Table := [(⟨"a", "s", "t"⟩, some (reentrantCb "b"))]

/-- A guarded engine with the re-entrant table whose slot is held. -/
def heldReentrant : FSM := lock true (NewFSM true "s" reentrantTable)

/-- A table with two transitions, `idle → running` on `on` without a callback and
`running → idle` on `off` with a callback. -/
def switchTable : Table :=
  [(⟨"on", "idle", "running"⟩, none), (⟨"off", "running", "idle"⟩, some doorCb)]

/-- The entries of `switchTable` in the other order. -/
def switchTableRev : Table :=
  [(⟨"off", "running", "idle"⟩, some doorCb), (⟨"on", "idle", "running"⟩, none)]

/-- The table `{(go, s, t): cb}` whose callback panics. -/
def panicTable : Table := [(⟨"go", "s", "t"⟩, some panicCb)]

/-- A callback that changes the state to `x` and restores it to `s` before returning. -/
def restoreCb : Callback := fun _ => .setState "x" (.setState "s" .ret)

/-- The table `{(go, s, t): cb}` whose callback changes the state and restores it. -/
def restoreTable : Table := [(⟨"go", "s", "t"⟩, some restoreCb)]

/-- The table `{(a, s, t): cb, (b, s, u): nil}` whose callback calls `Trigger("b")`. -/
def nestedTable : Table :=
  [(⟨"a", "s", "t"⟩, some (reentrantCb "b")), (⟨"b", "s", "u"⟩, none)]

/-- The entries of `nestedTable` followed by a third entry `(a, s, v)` without a
callback, which shares the pair `(a, s)` with the first and is processed last. -/
def nestedTableDup : Table :=
  [(⟨"a", "s", "t"⟩, some (reentrantCb "b")), (⟨"b", "s", "u"⟩, none),
    (⟨"a", "s", "v"⟩, none)]

/-- The table `{(a, s, u): nil, (a, s, t): cb}` whose callback calls `Trigger("a")`:
the two entries share the pair `(a, s)` and the one with the callback is processed
last. -/
def selfTable : Table :=
  [(⟨"a", "s", "u"⟩, none), (⟨"a", "s", "t"⟩, some (reentrantCb "a"))]

/-- The table `{(go, s, t): cb, (back, t, s): nil}` whose callback panics. -/
def panicBackTable : Table :=
  [(⟨"go", "s", "t"⟩, some panicCb), (⟨"back", "t", "s"⟩, none)]

/-! ## Frame: the guard pointer and the graph -/

theorem Prog.run_frame (trig : FSM → String → Option Result)
    (htrig : ∀ sm e r, trig sm e = some r → r.sm.mx = sm.mx ∧ r.sm.graph = sm.graph) :
    ∀ (p : Prog) (sm : FSM) (d : Done), Prog.run trig p sm = some d →
      d.sm.mx = sm.mx ∧ d.sm.graph = sm.graph := by
  intro p
  induction p with
  | ret => intro sm d h; simp [Prog.run] at h; subst h; simp
  | getState k ih => intro sm d h; simp only [Prog.run] at h; exact ih _ sm d h
  | setState s k ih =>
    intro sm d h
    simp only [Prog.run] at h
    simpa using ih _ d h
  | trigger event k ih =>
    intro sm d h
    simp only [Prog.run] at h
    cases ht : trig sm event with
    | none => simp [ht] at h
    | some r =>
      obtain ⟨sm1, out, c1⟩ := r
      have hf := htrig sm event _ ht
      cases out with
      | panicked v => simp [ht] at h; subst h; exact hf
      | returned err =>
        simp only [ht] at h
        cases hr : Prog.run trig (k err) sm1 with
        | none => simp [hr] at h
        | some d2 =>
          simp [hr] at h
          subst h
          have h2 := ih err sm1 d2 hr
          exact ⟨h2.1.trans hf.1, h2.2.trans hf.2⟩
  | panic v => intro sm d h; simp [Prog.run] at h; subst h; simp

@[simp] theorem lock_state (b : Bool) (s : FSM) : (lock b s).state = s.state := by
  cases b <;> rfl

@[simp] theorem lock_graph (b : Bool) (s : FSM) : (lock b s).graph = s.graph := by
  cases b <;> rfl

@[simp] theorem unlock_state (b : Bool) (s : FSM) : (unlock b s).state = s.state := by
  cases b <;> rfl

@[simp] theorem unlock_graph (b : Bool) (s : FSM) : (unlock b s).graph = s.graph := by
  cases b <;> rfl

@[simp] theorem advance_mx (st : String) (nx : next) (s : FSM) :
    (advance st nx s).mx = s.mx := by
  unfold advance; split <;> rfl

@[simp] theorem advance_graph (st : String) (nx : next) (s : FSM) :
    (advance st nx s).graph = s.graph := by
  unfold advance; split <;> rfl

theorem advance_state (st : String) (nx : next) (s : FSM) :
    (advance st nx s).state = if s.state = st then nx.transition.To else s.state := by
  unfold advance
  by_cases h : st = s.state
  · simp [h]
  · simp [h, Ne.symm h]

/-- Unlocking after locking gives back the guard of an engine whose slot is not held. -/
theorem unlock_mx_of_lock (sm s : FSM) (hmx : sm.mx ≠ some true)
    (hs : s.mx = (lock sm.mx.isSome sm).mx) : (unlock sm.mx.isSome s).mx = sm.mx := by
  obtain ⟨mx, state, graph⟩ := sm
  rcases mx with _ | _ | _ <;> simp_all [lock, unlock]

/-- The body of `Trigger` past the guard, for an engine whose slot is not held. -/
theorem Trigger_free (n : Nat) (sm : FSM) (e : String) (hmx : sm.mx ≠ some true) :
    Trigger (n + 1) sm e =
      match sm.graph e with
      | none => some ⟨sm, .returned (some (Errorf ("event not found: " ++ e))), []⟩
      | some vx =>
        match vx sm.state with
        | none => some ⟨sm, .returned (some (Errorf ("no state found for event: " ++ e
            ++ " current state: " ++ sm.state))), []⟩
        | some nx =>
          match nx.callback with
          | none => some ⟨{ sm with state := nx.transition.To }, .returned none, []⟩
          | some cb =>
            match Prog.run (Trigger n) (cb nx.transition) (lock sm.mx.isSome sm) with
            | none => none
            | some d =>
              some ⟨unlock sm.mx.isSome (advance sm.state nx d.sm),
                match d.panicv with
                | none => .returned none
                | some v => .panicked v,
                nx.transition :: d.calls⟩ := by
  obtain ⟨mx, state, graph⟩ := sm
  rcases mx with _ | _ | _
  · simp [Trigger, lock, unlock, advance]
  · simp [Trigger, lock, unlock, advance]
  · simp at hmx

/-- The body of `Trigger` when the slot is held: the `default` branch of the select. -/
theorem Trigger_held (n : Nat) (sm : FSM) (e : String) (hmx : sm.mx = some true) :
    Trigger (n + 1) sm e
      = some ⟨sm, .returned (some (Errorf "another transition is in progress")), []⟩ := by
  simp [Trigger, hmx]

theorem Trigger_frame : ∀ (n : Nat) (sm : FSM) (e : String) (r : Result),
    Trigger n sm e = some r → r.sm.mx = sm.mx ∧ r.sm.graph = sm.graph := by
  intro n
  induction n with
  | zero => intro sm e r h; simp [Trigger] at h
  | succ n ih =>
    intro sm e r h
    by_cases hmx : sm.mx = some true
    · rw [Trigger_held n sm e hmx] at h
      simp at h; subst h; simp
    · rw [Trigger_free n sm e hmx] at h
      split at h
      · simp at h; subst h; simp
      · split at h
        · simp at h; subst h; simp
        · split at h
          · simp at h; subst h; simp
          · split at h
            · simp at h
            · rename_i d hd
              have hf := Prog.run_frame (Trigger n) ih _ _ _ hd
              simp at h; subst h
              refine ⟨unlock_mx_of_lock sm _ hmx (by simpa using hf.1), by simpa using hf.2⟩

/-- Both deferred functions of `Trigger`, run on an engine `s` that the callback left
with the guard and graph of the locked engine. -/
theorem unlock_advance_eq (sm s : FSM) (nx : next) (hmx : sm.mx ≠ some true)
    (h1 : s.mx = (lock sm.mx.isSome sm).mx) (h2 : s.graph = sm.graph) :
    unlock sm.mx.isSome (advance sm.state nx s)
      = { sm with state := if s.state = sm.state then nx.transition.To else s.state } := by
  obtain ⟨mx, state, graph⟩ := sm
  obtain ⟨mx1, state1, graph1⟩ := s
  by_cases hst : state1 = state
  · rcases mx with _ | _ | _ <;> simp_all [lock, unlock, advance]
  · have hst' : ¬ state = state1 := fun h => hst h.symm
    rcases mx with _ | _ | _ <;> simp_all [lock, unlock, advance]

/-- A matched transition with a callback: the callback runs on the locked engine
and ends as `d`; the state becomes the destination if the callback left it at the
starting state and stays as the callback left it otherwise. -/
theorem Trigger_matched_callback (n : Nat) (sm : FSM) (e : String) (vx : GoMap next)
    (nx : next) (cb : Callback) (d : Done)
    (hmx : sm.mx ≠ some true) (hg : sm.graph e = some vx) (hs : vx sm.state = some nx)
    (hcb : nx.callback = some cb)
    (hrun : Prog.run (Trigger n) (cb nx.transition) (lock sm.mx.isSome sm) = some d) :
    Trigger (n + 1) sm e
      = some ⟨{ sm with state := if d.sm.state = sm.state then nx.transition.To else d.sm.state },
          match d.panicv with
          | none => .returned none
          | some v => .panicked v,
          nx.transition :: d.calls⟩ := by
  have hf := Prog.run_frame (Trigger n) (Trigger_frame n) _ _ _ hrun
  rw [Trigger_free n sm e hmx]
  simp only [hg, hs, hcb, hrun]
  rw [unlock_advance_eq sm d.sm nx hmx hf.1 (by simpa using hf.2)]

/-! ## The nesting bound only cuts runs off -/

/-- A callback body that ends under one `Trigger` ends the same way under any
`Trigger` that returns at least as often. -/
theorem Prog.run_mono (t1 t2 : FSM → String → Option Result)
    (h12 : ∀ sm e r, t1 sm e = some r → t2 sm e = some r) :
    ∀ (p : Prog) (sm : FSM) (d : Done), Prog.run t1 p sm = some d →
      Prog.run t2 p sm = some d := by
  intro p
  induction p with
  | ret => intro sm d h; simpa [Prog.run] using h
  | getState k ih => intro sm d h; simp only [Prog.run] at h ⊢; exact ih _ sm d h
  | setState s k ih => intro sm d h; simp only [Prog.run] at h ⊢; exact ih _ d h
  | trigger event k ih =>
    intro sm d h
    simp only [Prog.run] at h ⊢
    cases ht : t1 sm event with
    | none => simp [ht] at h
    | some r =>
      obtain ⟨sm1, out, c1⟩ := r
      rw [h12 sm event _ ht]
      cases out with
      | panicked v => simpa [ht] using h
      | returned err =>
        simp only [ht] at h ⊢
        cases hr : Prog.run t1 (k err) sm1 with
        | none => simp [hr] at h
        | some d2 =>
          rw [ih err sm1 d2 hr]
          simpa [hr] using h
  | panic v => intro sm d h; simpa [Prog.run] using h

/-- A call that returns within a nesting bound returns the same result within any
larger bound. -/
theorem Trigger_mono : ∀ (n : Nat) (sm : FSM) (e : String) (r : Result),
    Trigger n sm e = some r → Trigger (n + 1) sm e = some r := by
  intro n
  induction n with
  | zero => intro sm e r h; simp [Trigger] at h
  | succ n ih =>
    intro sm e r h
    by_cases hmx : sm.mx = some true
    · rw [Trigger_held n sm e hmx] at h
      rw [Trigger_held (n + 1) sm e hmx]
      exact h
    · rw [Trigger_free n sm e hmx] at h
      rw [Trigger_free (n + 1) sm e hmx]
      cases hg : sm.graph e with
      | none => simpa [hg] using h
      | some vx =>
        cases hs : vx sm.state with
        | none => simpa [hg, hs] using h
        | some nx =>
          cases hc : nx.callback with
          | none => simpa [hg, hs, hc] using h
          | some cb =>
            simp only [hg, hs, hc] at h ⊢
            cases hd : Prog.run (Trigger n) (cb nx.transition) (lock sm.mx.isSome sm) with
            | none => simp [hd] at h
            | some d =>
              rw [Prog.run_mono (Trigger n) (Trigger (n + 1)) ih _ _ _ hd]
              simpa [hd] using h

/-! ## The three errors are distinct -/

theorem notFound_ne_inProgress (e : String) :
    Errorf ("event not found: " ++ e) ≠ Errorf "another transition is in progress" := by
  intro h
  have h1 : ("event not found: " ++ e) = "another transition is in progress" := by
    simpa [Errorf] using h
  have h2 := congrArg String.data h1
  rw [String.data_append] at h2
  have h3 := congrArg List.head? h2
  simp at h3

theorem noState_ne_inProgress (e st : String) :
    Errorf ("no state found for event: " ++ e ++ " current state: " ++ st)
      ≠ Errorf "another transition is in progress" := by
  intro h
  have h1 : ("no state found for event: " ++ e ++ " current state: " ++ st)
      = "another transition is in progress" := by
    simpa [Errorf] using h
  have h2 := congrArg String.data h1
  rw [String.data_append, String.data_append, String.data_append] at h2
  have h3 := congrArg List.head? h2
  simp at h3

/-! ## Termination on guarded engines -/

/-- On an engine whose slot is held every nested `Trigger` returns at once, so every
callback body runs to its end. -/
theorem Prog.run_held (n : Nat) : ∀ (p : Prog) (s : FSM), s.mx = some true →
    ∃ d, Prog.run (Trigger (n + 1)) p s = some d := by
  intro p
  induction p with
  | ret => intro s _; exact ⟨_, rfl⟩
  | getState k ih => intro s h; simpa [Prog.run] using ih _ s h
  | setState s' k ih => intro s h; simpa [Prog.run] using ih { s with state := s' } h
  | trigger ev k ih =>
    intro s h
    obtain ⟨d, hd⟩ := ih (some (Errorf "another transition is in progress")) s h
    exact ⟨⟨d.sm, d.panicv, [] ++ d.calls⟩, by simp [Prog.run, Trigger_held n s ev h, hd]⟩
  | panic v => intro s _; exact ⟨_, rfl⟩

/-- A call on a guarded engine whose slot is free returns, whatever its callbacks do
with the engine: two levels of nesting are enough. -/
theorem Trigger_guarded_total (n : Nat) (sm : FSM) (e : String) (hmx : sm.mx = some false) :
    ∃ r, Trigger (n + 2) sm e = some r := by
  have hfree : sm.mx ≠ some true := by simp [hmx]
  rw [Trigger_free (n + 1) sm e hfree]
  split
  · exact ⟨_, rfl⟩
  · split
    · exact ⟨_, rfl⟩
    · rename_i nx hs
      split
      · exact ⟨_, rfl⟩
      · rename_i cb hcb
        obtain ⟨d, hd⟩ := Prog.run_held n (cb nx.transition) (lock sm.mx.isSome sm)
          (by simp [hmx, lock])
        simp [hd]

/-- How a call that gets past the guard can end: with one of the two lookup errors
when the lookups miss, and with nil or a callback's panic when they match. -/
theorem Trigger_free_out (n : Nat) (sm : FSM) (e : String) (r : Result)
    (hmx : sm.mx ≠ some true) (h : Trigger n sm e = some r) :
    (sm.lookup e = none ∧
      (r.out = .returned (some (Errorf ("event not found: " ++ e)))
        ∨ r.out = .returned (some (Errorf ("no state found for event: " ++ e
            ++ " current state: " ++ sm.state)))))
    ∨ ((sm.lookup e).isSome ∧ (r.out = .returned none ∨ ∃ v, r.out = .panicked v)) := by
  cases n with
  | zero => simp [Trigger] at h
  | succ n =>
    rw [Trigger_free n sm e hmx] at h
    unfold FSM.lookup
    split at h
    · rename_i hg
      simp at h; subst h; simp [hg]
    · rename_i vx hg
      split at h
      · rename_i hs
        simp at h; subst h; simp [hg, hs]
      · rename_i nx hs
        split at h
        · simp at h; subst h; simp [hg, hs]
        · split at h
          · simp at h
          · rename_i d hd
            simp at h; subst h
            right
            refine ⟨by simp [hg, hs], ?_⟩
            cases d.panicv <;> simp

/-! ## The guard, the two lookups and the callback-free advance -/

/-- C1: on an engine that is unguarded or guarded with a free slot, `Trigger e` for an
event `e` with no entry in the graph returns the error built from
`"event not found: " + e`, runs no callback, and leaves the whole engine, its current
state included, as it was before the call (the slot taken by the call is free again). -/
theorem Trigger_event_not_found (n : Nat) (sm : FSM) (e : String)
    (hmx : sm.mx ≠ some true) (hg : sm.graph e = none) :
    Trigger (n + 1) sm e
      = some ⟨sm, .returned (some (Errorf ("event not found: " ++ e))), []⟩ := by
  obtain ⟨mx, state, graph⟩ := sm
  rcases mx with _ | _ | _ <;> simp_all [Trigger, lock, unlock]

/-- C1 at a concrete engine: the event `off` is not in the graph built from
`{(on, idle, running): nil}`. -/
theorem Trigger_event_not_found_witness :
    (NewFSM true "idle" onTable).mx ≠ some true
    ∧ (NewFSM true "idle" onTable).graph "off" = none
    ∧ Trigger 1 (NewFSM true "idle" onTable) "off"
      = some ⟨NewFSM true "idle" onTable,
          .returned (some (Errorf ("event not found: " ++ "off"))), []⟩ :=
  ⟨by decide, rfl, Trigger_event_not_found 0 (NewFSM true "idle" onTable) "off" (by decide) rfl⟩

/-- C2: on an engine that is unguarded or guarded with a free slot, `Trigger e` for an
event `e` that is in the graph, from a current state for which the graph has no entry
under `e`, returns the error built from
`"no state found for event: " + e + " current state: " + state`, runs no callback and
leaves the whole engine, its current state included, as it was before the call. -/
theorem Trigger_no_transition_for_state (n : Nat) (sm : FSM) (e : String) (vx : GoMap next)
    (hmx : sm.mx ≠ some true) (hg : sm.graph e = some vx) (hs : vx sm.state = none) :
    Trigger (n + 1) sm e
      = some ⟨sm, .returned (some (Errorf ("no state found for event: " ++ e
          ++ " current state: " ++ sm.state))), []⟩ := by
  obtain ⟨mx, state, graph⟩ := sm
  rcases mx with _ | _ | _ <;> simp_all [Trigger, lock, unlock]

/-- C2 at the spec's example: table `{(on, idle, running): nil}`, initial state
`stopped`, `Trigger "on"` fails and the state remains `stopped`. -/
theorem Trigger_no_transition_for_state_witness :
    (NewFSM false "stopped" onTable).mx ≠ some true
    ∧ (NewFSM false "stopped" onTable).graph "on"
        = some (row ⟨"on", "idle", "running"⟩ none)
    ∧ row ⟨"on", "idle", "running"⟩ none
        (NewFSM false "stopped" onTable).state = none
    ∧ Trigger 1 (NewFSM false "stopped" onTable) "on"
      = some ⟨NewFSM false "stopped" onTable,
          .returned (some (Errorf ("no state found for event: " ++ "on"
            ++ " current state: " ++ (NewFSM false "stopped" onTable).state))), []⟩ :=
  ⟨by decide, rfl, rfl,
    Trigger_no_transition_for_state 0 (NewFSM false "stopped" onTable) "on"
      (row ⟨"on", "idle", "running"⟩ none) (by decide) rfl rfl⟩

/-- C3: on an engine that is unguarded or guarded with a free slot, whose graph maps
the event `e` and the current state to an entry `nx` without a callback, `Trigger e`
returns no error, runs no callback, and leaves the engine with the current state set
to the destination `nx.transition.To` and everything else as before. -/
theorem Trigger_no_callback (n : Nat) (sm : FSM) (e : String) (vx : GoMap next) (nx : next)
    (hmx : sm.mx ≠ some true) (hg : sm.graph e = some vx) (hs : vx sm.state = some nx)
    (hcb : nx.callback = none) :
    Trigger (n + 1) sm e
      = some ⟨{ sm with state := nx.transition.To }, .returned none, []⟩ := by
  obtain ⟨mx, state, graph⟩ := sm
  rcases mx with _ | _ | _ <;> simp_all [Trigger, lock, unlock, advance]

/-- C3 at the spec's example: table `{(on, idle, running): nil}`, initial state `idle`,
`Trigger "on"` succeeds and the state is `running`. -/
theorem Trigger_no_callback_witness :
    (NewFSM false "idle" onTable).mx ≠ some true
    ∧ (NewFSM false "idle" onTable).graph "on"
        = some (row ⟨"on", "idle", "running"⟩ none)
    ∧ row ⟨"on", "idle", "running"⟩ none
        (NewFSM false "idle" onTable).state = some ⟨⟨"on", "idle", "running"⟩, none⟩
    ∧ (⟨⟨"on", "idle", "running"⟩, none⟩ : next).callback = none
    ∧ Trigger 1 (NewFSM false "idle" onTable) "on"
      = some ⟨{ NewFSM false "idle" onTable with state := "running" }, .returned none, []⟩ :=
  ⟨by decide, rfl, rfl, rfl,
    Trigger_no_callback 0 (NewFSM false "idle" onTable) "on"
      (row ⟨"on", "idle", "running"⟩ none)
      ⟨⟨"on", "idle", "running"⟩, none⟩ (by decide) rfl rfl rfl⟩

/-! ## Callbacks -/

/-- C4 as stated fails on a guarded engine whose slot is held: the graph maps
`(open, closed)` to a transition with destination `open` and a callback that leaves the
state untouched, yet `Trigger "open"` returns the in-progress error and the state
stays `closed`. -/
theorem Trigger_callback_untouched_counterexample :
    heldDoor.graph "open" = some (row ⟨"open", "closed", "open"⟩ (some doorCb))
    ∧ row ⟨"open", "closed", "open"⟩ (some doorCb) heldDoor.state
        = some ⟨⟨"open", "closed", "open"⟩, some doorCb⟩
    ∧ Prog.run (Trigger 0) (doorCb ⟨"open", "closed", "open"⟩) heldDoor = some ⟨heldDoor, none, []⟩
    ∧ Trigger 1 heldDoor "open"
        = some ⟨heldDoor, .returned (some (Errorf "another transition is in progress")), []⟩
    ∧ heldDoor.state = "closed" ∧ heldDoor.state ≠ "open"
    ∧ ¬ ∃ r, Trigger 1 heldDoor "open" = some r ∧ r.out = .returned none
        ∧ r.sm.state = "open" :=
  ⟨rfl, rfl, rfl, rfl, rfl, by decide, by
    rintro ⟨r, h, hout, _⟩
    have h0 : Trigger 1 heldDoor "open"
        = some ⟨heldDoor, .returned (some (Errorf "another transition is in progress")), []⟩ := rfl
    rw [h0] at h
    obtain rfl := Option.some.inj h
    simp at hout⟩

/-- C4, amended: on an engine that is unguarded or guarded with a free slot, whose
graph maps the event `e` and the current state to an entry `nx` with a callback that
returns leaving the state field equal to the starting state, `Trigger e` returns no
error and ends with the state set to the destination `nx.transition.To` and the rest of
the engine as before; the same engine with the callback of that entry replaced by nil
gives the same result and the same final state. -/
theorem Trigger_callback_untouched (n : Nat) (sm : FSM) (e : String) (vx : GoMap next)
    (nx : next) (cb : Callback) (d : Done)
    (hmx : sm.mx ≠ some true) (hg : sm.graph e = some vx) (hs : vx sm.state = some nx)
    (hcb : nx.callback = some cb)
    (hrun : Prog.run (Trigger n) (cb nx.transition) (lock sm.mx.isSome sm) = some d)
    (hret : d.panicv = none) (hst : d.sm.state = sm.state) :
    Trigger (n + 1) sm e
      = some ⟨{ sm with state := nx.transition.To }, .returned none, nx.transition :: d.calls⟩
    ∧ Trigger (n + 1)
        { sm with graph := sm.graph.set e (vx.set sm.state ⟨nx.transition, none⟩) } e
      = some ⟨{ sm with graph := sm.graph.set e (vx.set sm.state ⟨nx.transition, none⟩),
                        state := nx.transition.To }, .returned none, []⟩ := by
  constructor
  · rw [Trigger_matched_callback n sm e vx nx cb d hmx hg hs hcb hrun]
    simp [hret, hst]
  · have h := Trigger_free n
      { sm with graph := sm.graph.set e (vx.set sm.state ⟨nx.transition, none⟩) } e hmx
    rw [h]
    simp [GoMap.set]

/-- C4 at the spec's example: table `{(open, closed, open): cb}` on a guarded engine,
`Trigger "open"` advances the state to `open`, with the callback and with nil in its
place. -/
theorem Trigger_callback_untouched_witness :
    (NewFSM true "closed" doorTable).mx ≠ some true
    ∧ (NewFSM true "closed" doorTable).graph "open"
        = some (row ⟨"open", "closed", "open"⟩ (some doorCb))
    ∧ row ⟨"open", "closed", "open"⟩ (some doorCb) (NewFSM true "closed" doorTable).state
        = some ⟨⟨"open", "closed", "open"⟩, some doorCb⟩
    ∧ Prog.run (Trigger 0) (doorCb ⟨"open", "closed", "open"⟩)
        (lock (NewFSM true "closed" doorTable).mx.isSome (NewFSM true "closed" doorTable))
        = some ⟨heldDoor, none, []⟩
    ∧ heldDoor.state = (NewFSM true "closed" doorTable).state
    ∧ Trigger 1 (NewFSM true "closed" doorTable) "open"
        = some ⟨{ NewFSM true "closed" doorTable with state := "open" }, .returned none,
            [⟨"open", "closed", "open"⟩]⟩
    ∧ Trigger 1
        { NewFSM true "closed" doorTable with
          graph := (NewFSM true "closed" doorTable).graph.set "open"
            ((row ⟨"open", "closed", "open"⟩ (some doorCb)).set "closed"
              ⟨⟨"open", "closed", "open"⟩, none⟩) } "open"
        = some ⟨{ NewFSM true "closed" doorTable with
          graph := (NewFSM true "closed" doorTable).graph.set "open"
            ((row ⟨"open", "closed", "open"⟩ (some doorCb)).set "closed"
              ⟨⟨"open", "closed", "open"⟩, none⟩),
          state := "open" }, .returned none, []⟩ :=
  ⟨by decide, rfl, rfl, rfl, rfl,
    Trigger_callback_untouched 0 (NewFSM true "closed" doorTable) "open"
      (row ⟨"open", "closed", "open"⟩ (some doorCb)) ⟨⟨"open", "closed", "open"⟩, some doorCb⟩
      doorCb ⟨heldDoor, none, []⟩ (by decide) rfl rfl rfl rfl rfl rfl⟩

/-- C5 as stated fails on a guarded engine whose slot is held: the graph maps
`(pause, running)` to a transition whose callback leaves the engine in the state
`interrupted`, different from the starting state, yet `Trigger "pause"` returns the
in-progress error and the final state is `running`, not `interrupted`. -/
theorem Trigger_callback_override_counterexample :
    heldPause.graph "pause" = some (row ⟨"pause", "running", "paused"⟩ (some pauseCb))
    ∧ row ⟨"pause", "running", "paused"⟩ (some pauseCb) heldPause.state
        = some ⟨⟨"pause", "running", "paused"⟩, some pauseCb⟩
    ∧ Prog.run (Trigger 0) (pauseCb ⟨"pause", "running", "paused"⟩) heldPause
        = some ⟨{ heldPause with state := "interrupted" }, none, []⟩
    ∧ "interrupted" ≠ heldPause.state
    ∧ Trigger 1 heldPause "pause"
        = some ⟨heldPause, .returned (some (Errorf "another transition is in progress")), []⟩
    ∧ heldPause.state = "running"
    ∧ ¬ ∃ r, Trigger 1 heldPause "pause" = some r ∧ r.out = .returned none
        ∧ r.sm.state = "interrupted" :=
  ⟨rfl, rfl, rfl, by decide, rfl, rfl, by
    rintro ⟨r, h, hout, _⟩
    have h0 : Trigger 1 heldPause "pause"
        = some ⟨heldPause, .returned (some (Errorf "another transition is in progress")), []⟩ := rfl
    rw [h0] at h
    obtain rfl := Option.some.inj h
    simp at hout⟩

/-- C5, amended: on an engine that is unguarded or guarded with a free slot, whose
graph maps the event `e` and the current state `s` to an entry with a callback that
returns leaving the engine in a state `s'` different from `s`, `Trigger e` returns no
error and the final state is `s'` as the callback left it, whatever the declared
destination is; the rest of the engine is as before. -/
theorem Trigger_callback_override (n : Nat) (sm : FSM) (e : String) (vx : GoMap next)
    (nx : next) (cb : Callback) (d : Done)
    (hmx : sm.mx ≠ some true) (hg : sm.graph e = some vx) (hs : vx sm.state = some nx)
    (hcb : nx.callback = some cb)
    (hrun : Prog.run (Trigger n) (cb nx.transition) (lock sm.mx.isSome sm) = some d)
    (hret : d.panicv = none) (hst : d.sm.state ≠ sm.state) :
    Trigger (n + 1) sm e
      = some ⟨{ sm with state := d.sm.state }, .returned none, nx.transition :: d.calls⟩ := by
  rw [Trigger_matched_callback n sm e vx nx cb d hmx hg hs hcb hrun]
  simp [hret, hst]

/-- C5 at the spec's example: table `{(pause, running, paused): cb}` where `cb` sets
the state to `interrupted`; after `Trigger "pause"` the state is `interrupted`, which
is not the declared destination `paused`. -/
theorem Trigger_callback_override_witness :
    (NewFSM false "running" pauseTable).mx ≠ some true
    ∧ (NewFSM false "running" pauseTable).graph "pause"
        = some (row ⟨"pause", "running", "paused"⟩ (some pauseCb))
    ∧ row ⟨"pause", "running", "paused"⟩ (some pauseCb) (NewFSM false "running" pauseTable).state
        = some ⟨⟨"pause", "running", "paused"⟩, some pauseCb⟩
    ∧ Prog.run (Trigger 0) (pauseCb ⟨"pause", "running", "paused"⟩)
        (lock (NewFSM false "running" pauseTable).mx.isSome (NewFSM false "running" pauseTable))
        = some ⟨{ NewFSM false "running" pauseTable with state := "interrupted" }, none, []⟩
    ∧ "interrupted" ≠ (NewFSM false "running" pauseTable).state
    ∧ "interrupted" ≠ "paused"
    ∧ Trigger 1 (NewFSM false "running" pauseTable) "pause"
        = some ⟨{ NewFSM false "running" pauseTable with state := "interrupted" },
            .returned none, [⟨"pause", "running", "paused"⟩]⟩ :=
  ⟨by decide, rfl, rfl, rfl, by decide, by decide,
    Trigger_callback_override 0 (NewFSM false "running" pauseTable) "pause"
      (row ⟨"pause", "running", "paused"⟩ (some pauseCb))
      ⟨⟨"pause", "running", "paused"⟩, some pauseCb⟩ pauseCb
      ⟨{ NewFSM false "running" pauseTable with state := "interrupted" }, none, []⟩
      (by decide) rfl rfl rfl rfl rfl (by decide)⟩

/-! ## The guard -/

/-- C6: on a guarded engine whose slot is held, `Trigger e` for any event `e` and any
graph returns the error built from `"another transition is in progress"`, invokes no
callback (the list of invoked callbacks is empty), and leaves the whole engine as it
was: the current state is unchanged and the slot is still held. -/
theorem Trigger_in_progress (n : Nat) (sm : FSM) (e : String) (hmx : sm.mx = some true) :
    Trigger (n + 1) sm e
      = some ⟨sm, .returned (some (Errorf "another transition is in progress")), []⟩ := by
  simp [Trigger, hmx]

/-- C6 at a concrete engine: the slot is held and the graph has an entry for `go` at
the current state whose callback would panic; the call returns the in-progress
error and nothing ran. -/
theorem Trigger_in_progress_witness :
    heldPanic.mx = some true
    ∧ Trigger 1 heldPanic "go"
      = some ⟨heldPanic, .returned (some (Errorf "another transition is in progress")), []⟩ :=
  ⟨rfl, Trigger_in_progress 0 heldPanic "go" rfl⟩

/-- C7 as stated fails on a guarded engine whose slot is already held when the outer
call is made: the callback of `(a, s, t)` calls `Trigger("b")` on its own engine, yet
the outer `Trigger "a"` returns the in-progress error and the state stays `s`. -/
theorem Trigger_reentrant_guarded_counterexample :
    heldReentrant.mx = some true
    ∧ heldReentrant.graph "a" = some (row ⟨"a", "s", "t"⟩ (some (reentrantCb "b")))
    ∧ row ⟨"a", "s", "t"⟩ (some (reentrantCb "b")) heldReentrant.state
        = some ⟨⟨"a", "s", "t"⟩, some (reentrantCb "b")⟩
    ∧ reentrantCb "b" ⟨"a", "s", "t"⟩ = .trigger "b" (fun _ => .ret)
    ∧ Trigger 2 heldReentrant "a"
        = some ⟨heldReentrant, .returned (some (Errorf "another transition is in progress")), []⟩
    ∧ heldReentrant.state = "s" ∧ heldReentrant.state ≠ "t"
    ∧ ¬ ∃ r, Trigger 2 heldReentrant "a" = some r ∧ r.out = .returned none
        ∧ r.sm.state = "t" :=
  ⟨rfl, rfl, rfl, rfl, rfl, rfl, by decide, by
    rintro ⟨r, h, hout, _⟩
    have h0 : Trigger 2 heldReentrant "a"
        = some ⟨heldReentrant, .returned (some (Errorf "another transition is in progress")), []⟩ := rfl
    rw [h0] at h
    obtain rfl := Option.some.inj h
    simp at hout⟩

/-- C7, amended: on a guarded engine whose slot is free, for a matched transition
whose callback calls `Trigger(e2)` on the same engine and returns once that call has
returned the in-progress error: the nested call, made on the engine with the slot
held, returns the in-progress error and changes nothing, and the outer `Trigger e`
returns no error and ends in the declared destination, having invoked that one
callback only. -/
theorem Trigger_reentrant_guarded (n : Nat) (sm : FSM) (e e2 : String) (vx : GoMap next)
    (nx : next) (cb : Callback) (k : Option error → Prog)
    (hmx : sm.mx = some false) (hg : sm.graph e = some vx) (hs : vx sm.state = some nx)
    (hcb : nx.callback = some cb) (hbody : cb nx.transition = .trigger e2 k)
    (hk : k (some (Errorf "another transition is in progress")) = .ret) :
    Trigger (n + 1) (lock true sm) e2
      = some ⟨lock true sm, .returned (some (Errorf "another transition is in progress")), []⟩
    ∧ Trigger (n + 2) sm e
      = some ⟨{ sm with state := nx.transition.To }, .returned none, [nx.transition]⟩ := by
  have hnest : Trigger (n + 1) (lock true sm) e2
      = some ⟨lock true sm, .returned (some (Errorf "another transition is in progress")), []⟩ :=
    Trigger_held n _ e2 (by simp [lock])
  refine ⟨hnest, ?_⟩
  have hfree : sm.mx ≠ some true := by simp [hmx]
  have hrun : Prog.run (Trigger (n + 1)) (cb nx.transition) (lock sm.mx.isSome sm)
      = some ⟨lock true sm, none, []⟩ := by
    rw [hbody, hmx]
    simp [Prog.run, hnest, hk]
  rw [Trigger_matched_callback (n + 1) sm e vx nx cb _ hfree hg hs hcb hrun]
  simp

/-- C7 at a concrete engine: guarded, slot free, table `{(a, s, t): cb}` where `cb`
calls `Trigger("b")`; the nested call fails and the outer call ends in `t`. -/
theorem Trigger_reentrant_guarded_witness :
    (NewFSM true "s" reentrantTable).mx = some false
    ∧ (NewFSM true "s" reentrantTable).graph "a"
        = some (row ⟨"a", "s", "t"⟩ (some (reentrantCb "b")))
    ∧ row ⟨"a", "s", "t"⟩ (some (reentrantCb "b")) (NewFSM true "s" reentrantTable).state
        = some ⟨⟨"a", "s", "t"⟩, some (reentrantCb "b")⟩
    ∧ Trigger 1 (lock true (NewFSM true "s" reentrantTable)) "b"
        = some ⟨lock true (NewFSM true "s" reentrantTable),
            .returned (some (Errorf "another transition is in progress")), []⟩
    ∧ Trigger 2 (NewFSM true "s" reentrantTable) "a"
        = some ⟨{ NewFSM true "s" reentrantTable with state := "t" }, .returned none,
            [⟨"a", "s", "t"⟩]⟩ :=
  ⟨rfl, rfl, rfl,
    Trigger_reentrant_guarded 0 (NewFSM true "s" reentrantTable) "a" "b"
      (row ⟨"a", "s", "t"⟩ (some (reentrantCb "b"))) ⟨⟨"a", "s", "t"⟩, some (reentrantCb "b")⟩
      (reentrantCb "b") (fun _ => .ret) rfl rfl rfl rfl rfl rfl⟩

/-- C8 as stated fails when a matched callback panics: on a guarded engine whose slot
is free, the calls `Trigger "go"` and then `Trigger "back"` each match a transition, yet
the first does not succeed: its callback panics and the call unwinds with that panic
(the slot is released all the same, and the second call returns nil). -/
theorem Trigger_releases_slot_counterexample :
    (NewFSM true "s" panicBackTable).mx = some false
    ∧ ((NewFSM true "s" panicBackTable).lookup "go").isSome = true
    ∧ Trigger 2 (NewFSM true "s" panicBackTable) "go"
        = some ⟨{ NewFSM true "s" panicBackTable with state := "t" }, .panicked "boom",
            [⟨"go", "s", "t"⟩]⟩
    ∧ (({ NewFSM true "s" panicBackTable with state := "t" } : FSM).lookup "back").isSome
        = true
    ∧ Trigger 2 { NewFSM true "s" panicBackTable with state := "t" } "back"
        = some ⟨NewFSM true "s" panicBackTable, .returned none, []⟩
    ∧ ¬ ∃ r, Trigger 2 (NewFSM true "s" panicBackTable) "go" = some r
        ∧ r.out = .returned none :=
  ⟨rfl, rfl, rfl, rfl, rfl, by
    rintro ⟨r, h, hout⟩
    have h0 : Trigger 2 (NewFSM true "s" panicBackTable) "go"
        = some ⟨{ NewFSM true "s" panicBackTable with state := "t" }, .panicked "boom",
            [⟨"go", "s", "t"⟩]⟩ := rfl
    rw [h0] at h
    obtain rfl := Option.some.inj h
    simp at hout⟩

/-- C8, amended: on a guarded engine whose slot is free before a `Trigger` call, the
slot is free again whenever the call returns or unwinds, on every path and at every
nesting depth; the call does end (two levels of nesting suffice on a guarded engine);
hence of two sequential calls neither returns the in-progress error, the slot is free
after each, and each call that matches a transition whose callback is absent or
returns normally succeeds: it returns nil. (A matched call whose callback panics
ends with that panic instead.) -/
theorem Trigger_releases_slot (n : Nat) (sm : FSM) (e1 e2 : String)
    (hmx : sm.mx = some false) :
    (∀ m e r, Trigger m sm e = some r → r.sm.mx = some false)
    ∧ ∃ r1 r2, Trigger (n + 2) sm e1 = some r1 ∧ r1.sm.mx = some false
        ∧ Trigger (n + 2) r1.sm e2 = some r2 ∧ r2.sm.mx = some false
        ∧ r1.out ≠ .returned (some (Errorf "another transition is in progress"))
        ∧ r2.out ≠ .returned (some (Errorf "another transition is in progress"))
        ∧ ((sm.lookup e1).isSome → r1.out = .returned none ∨ ∃ v, r1.out = .panicked v)
        ∧ ((r1.sm.lookup e2).isSome → r2.out = .returned none ∨ ∃ v, r2.out = .panicked v)
        ∧ ((sm.lookup e1).isSome → callbackReturns (n + 1) sm e1 → r1.out = .returned none)
        ∧ ((r1.sm.lookup e2).isSome → callbackReturns (n + 1) r1.sm e2 →
            r2.out = .returned none) := by
  have key : ∀ (s : FSM) (e : String), s.mx = some false →
      ∃ r, Trigger (n + 2) s e = some r ∧ r.sm.mx = some false
        ∧ r.out ≠ .returned (some (Errorf "another transition is in progress"))
        ∧ ((s.lookup e).isSome → r.out = .returned none ∨ ∃ v, r.out = .panicked v)
        ∧ ((s.lookup e).isSome → callbackReturns (n + 1) s e → r.out = .returned none) := by
    intro s e hs
    have hfree : s.mx ≠ some true := by simp [hs]
    obtain ⟨r, hr⟩ := Trigger_guarded_total n s e hs
    refine ⟨r, hr, ((Trigger_frame _ s e r hr).1).trans hs, ?_, ?_, ?_⟩
    · rcases Trigger_free_out _ s e r hfree hr with ⟨_, h | h⟩ | ⟨_, h | ⟨v, h⟩⟩
      · rw [h]; intro hc
        exact notFound_ne_inProgress e (by simpa using hc)
      · rw [h]; intro hc
        exact noState_ne_inProgress e s.state (by simpa using hc)
      · rw [h]; simp
      · rw [h]; simp
    · intro hm
      rcases Trigger_free_out _ s e r hfree hr with ⟨hn, _⟩ | ⟨_, h⟩
      · simp [hn] at hm
      · exact h
    · intro hm hcb
      rw [Trigger_free (n + 1) s e hfree] at hr
      unfold FSM.lookup at hm
      unfold callbackReturns FSM.lookup at hcb
      cases hg : s.graph e with
      | none => simp [hg] at hm
      | some vx =>
        cases hst : vx s.state with
        | none => simp [hg, hst] at hm
        | some nx =>
          cases hc : nx.callback with
          | none =>
            simp only [hg, hst, hc] at hr
            obtain rfl := Option.some.inj hr
            rfl
          | some cb =>
            obtain ⟨d, hd, hp⟩ := hcb nx cb (by simp [hg, hst]) hc
            simp only [hg, hst, hc, hd] at hr
            obtain rfl := Option.some.inj hr
            simp [hp]
  refine ⟨fun m e r hr => ((Trigger_frame m sm e r hr).1).trans hmx, ?_⟩
  obtain ⟨r1, h1, hmx1, hne1, hok1, hs1⟩ := key sm e1 hmx
  obtain ⟨r2, h2, hmx2, hne2, hok2, hs2⟩ := key r1.sm e2 hmx1
  exact ⟨r1, r2, h1, hmx1, h2, hmx2, hne1, hne2, hok1, hok2, hs1, hs2⟩

/-- C8 at a concrete engine: guarded, table `{(on, idle, running): nil,
(off, running, idle): cb}`, the calls `Trigger "on"` then `Trigger "off"`; evaluated,
both return nil and the engine is back in `idle` with its slot free. -/
theorem Trigger_releases_slot_witness :
    (NewFSM true "idle" switchTable).mx = some false
    ∧ ((∀ m e r, Trigger m (NewFSM true "idle" switchTable) e = some r → r.sm.mx = some false)
      ∧ ∃ r1 r2, Trigger 2 (NewFSM true "idle" switchTable) "on" = some r1
        ∧ r1.sm.mx = some false
        ∧ Trigger 2 r1.sm "off" = some r2 ∧ r2.sm.mx = some false
        ∧ r1.out ≠ .returned (some (Errorf "another transition is in progress"))
        ∧ r2.out ≠ .returned (some (Errorf "another transition is in progress"))
        ∧ (((NewFSM true "idle" switchTable).lookup "on").isSome
            → r1.out = .returned none ∨ ∃ v, r1.out = .panicked v)
        ∧ ((r1.sm.lookup "off").isSome → r2.out = .returned none ∨ ∃ v, r2.out = .panicked v)
        ∧ (((NewFSM true "idle" switchTable).lookup "on").isSome
            → callbackReturns 1 (NewFSM true "idle" switchTable) "on"
            → r1.out = .returned none)
        ∧ ((r1.sm.lookup "off").isSome → callbackReturns 1 r1.sm "off"
            → r2.out = .returned none))
    ∧ Trigger 2 (NewFSM true "idle" switchTable) "on"
        = some ⟨{ NewFSM true "idle" switchTable with state := "running" }, .returned none, []⟩
    ∧ Trigger 2 { NewFSM true "idle" switchTable with state := "running" } "off"
        = some ⟨NewFSM true "idle" switchTable, .returned none, [⟨"off", "running", "idle"⟩]⟩
    ∧ callbackReturns 1 (NewFSM true "idle" switchTable) "on"
    ∧ callbackReturns 1 { NewFSM true "idle" switchTable with state := "running" } "off" :=
  ⟨rfl, Trigger_releases_slot 0 (NewFSM true "idle" switchTable) "on" "off" rfl, rfl, rfl,
    by
      intro nx cb h1 h2
      have hl : (NewFSM true "idle" switchTable).lookup "on"
          = some ⟨⟨"on", "idle", "running"⟩, none⟩ := rfl
      rw [hl] at h1
      obtain rfl := Option.some.inj h1
      simp at h2,
    by
      intro nx cb h1 h2
      have hl : ({ NewFSM true "idle" switchTable with state := "running" } : FSM).lookup "off"
          = some ⟨⟨"off", "running", "idle"⟩, some doorCb⟩ := rfl
      rw [hl] at h1
      obtain rfl := Option.some.inj h1
      obtain rfl := Option.some.inj h2
      exact ⟨_, rfl, rfl⟩⟩

/-! ## The errors of `Trigger` -/

/-- C9: on an engine whose guard is absent or free, if the callback of the entry
matched by `e` at the current state (when there is one) returns normally, then
`Trigger e` returns, and the error it returns is nil if and only if the graph has an
entry for `e` at the current state; when it is not nil it is the event-not-found or
the no-state error. On any engine at all, an error returned by `Trigger` is one of
the in-progress, event-not-found and no-state errors. So a callback that returns
cannot turn a matched transition into an error result. -/
theorem Trigger_error_iff (n : Nat) (sm : FSM) (e : String)
    (hmx : sm.mx ≠ some true)
    (hcb : ∀ nx cb, sm.lookup e = some nx → nx.callback = some cb →
      ∃ d, Prog.run (Trigger n) (cb nx.transition) (lock sm.mx.isSome sm) = some d
        ∧ d.panicv = none) :
    (∃ r err, Trigger (n + 1) sm e = some r ∧ r.out = .returned err
      ∧ (err = none ↔ (sm.lookup e).isSome)
      ∧ (err = none
          ∨ err = some (Errorf ("event not found: " ++ e))
          ∨ err = some (Errorf ("no state found for event: " ++ e
              ++ " current state: " ++ sm.state))))
    ∧ ∀ (m : Nat) (sm' : FSM) (e' : String) (r' : Result) (err' : error),
        Trigger m sm' e' = some r' → r'.out = .returned (some err') →
          err' = Errorf "another transition is in progress"
          ∨ err' = Errorf ("event not found: " ++ e')
          ∨ err' = Errorf ("no state found for event: " ++ e'
              ++ " current state: " ++ sm'.state) := by
  constructor
  · rw [Trigger_free n sm e hmx]
    unfold FSM.lookup at *
    cases hg : sm.graph e with
    | none => simp
    | some vx =>
      cases hs : vx sm.state with
      | none => simp [hs]
      | some nx =>
        cases hc : nx.callback with
        | none => simp [hs, hc]
        | some cb =>
          obtain ⟨d, hd, hp⟩ := hcb nx cb (by simp [hg, hs]) hc
          simp [hs, hc, hd, hp]
  · intro m sm' e' r' err' h hout
    by_cases hmx' : sm'.mx = some true
    · cases m with
      | zero => simp [Trigger] at h
      | succ m =>
        rw [Trigger_held m sm' e' hmx'] at h
        simp at h; subst h
        simp at hout
        exact Or.inl hout.symm
    · rcases Trigger_free_out m sm' e' r' hmx' h with ⟨_, h1 | h1⟩ | ⟨_, h1 | ⟨v, h1⟩⟩
      · rw [h1] at hout; simp at hout
        exact Or.inr (Or.inl hout.symm)
      · rw [h1] at hout; simp at hout
        exact Or.inr (Or.inr hout.symm)
      · rw [h1] at hout; simp at hout
      · rw [h1] at hout; simp at hout

/-- C9 at the spec's pause example: the callback returns normally (having set the
state), and `Trigger "pause"` returns nil, the graph having an entry for `pause` at
`running`. -/
theorem Trigger_error_iff_witness :
    (NewFSM false "running" pauseTable).mx ≠ some true
    ∧ ((∃ r err, Trigger 1 (NewFSM false "running" pauseTable) "pause" = some r
        ∧ r.out = .returned err
        ∧ (err = none ↔ ((NewFSM false "running" pauseTable).lookup "pause").isSome)
        ∧ (err = none
            ∨ err = some (Errorf ("event not found: " ++ "pause"))
            ∨ err = some (Errorf ("no state found for event: " ++ "pause"
                ++ " current state: " ++ (NewFSM false "running" pauseTable).state))))
      ∧ ∀ (m : Nat) (sm' : FSM) (e' : String) (r' : Result) (err' : error),
          Trigger m sm' e' = some r' → r'.out = .returned (some err') →
            err' = Errorf "another transition is in progress"
            ∨ err' = Errorf ("event not found: " ++ e')
            ∨ err' = Errorf ("no state found for event: " ++ e'
                ++ " current state: " ++ sm'.state)) :=
  ⟨by decide,
    Trigger_error_iff 0 (NewFSM false "running" pauseTable) "pause" (by decide)
      (by
        intro nx cb h1 h2
        have hl : (NewFSM false "running" pauseTable).lookup "pause"
            = some ⟨⟨"pause", "running", "paused"⟩, some pauseCb⟩ := rfl
        rw [hl] at h1
        have hnx := Option.some.inj h1
        subst hnx
        have hcb := Option.some.inj h2
        subst hcb
        exact ⟨_, rfl, rfl⟩)⟩

/-! ## The graph built by `NewFSM` -/

theorem entryAt_make (e f : String) : entryAt GoMap.make e f = none := rfl

/-- One iteration of the loop writes the entry of its key and leaves the others. -/
theorem entryAt_step (g : GoMap (GoMap next)) (x : Transition × Option Callback)
    (e f : String) :
    entryAt (NewFSM.step g x) e f
      = if x.1.Event = e ∧ x.1.From = f then some ⟨x.1, x.2⟩ else entryAt g e f := by
  unfold entryAt NewFSM.step GoMap.set
  by_cases he : e = x.1.Event
  · subst he
    by_cases hf : f = x.1.From
    · subst hf; simp
    · have hf' : ¬ x.1.From = f := fun h => hf h.symm
      simp only [hf, hf', if_true, if_false, and_false]
      cases g x.1.Event <;> simp [GoMap.make]
  · have he' : ¬ x.1.Event = e := fun h => he h.symm
    simp [he, he']

/-- The loop, one more entry processed last. -/
theorem entryAt_foldl_append (g : GoMap (GoMap next)) (l : Table)
    (x : Transition × Option Callback) (e f : String) :
    entryAt ((l ++ [x]).foldl NewFSM.step g) e f
      = if x.1.Event = e ∧ x.1.From = f then some ⟨x.1, x.2⟩
        else entryAt (l.foldl NewFSM.step g) e f := by
  rw [List.foldl_append]
  simp [entryAt_step]

/-- Every entry of the built graph comes from an entry of the table with that key. -/
theorem entryAt_foldl_mem (e f : String) (nx : next) : ∀ (table : Table),
    entryAt (table.foldl NewFSM.step GoMap.make) e f = some nx →
      nx.transition.Event = e ∧ nx.transition.From = f
        ∧ (nx.transition, nx.callback) ∈ table := by
  intro table
  induction table using List.reverseRecOn with
  | nil => intro h; simp [entryAt_make] at h
  | append_singleton l x ih =>
    intro h
    rw [entryAt_foldl_append] at h
    by_cases hx : x.1.Event = e ∧ x.1.From = f
    · simp only [hx, and_self, if_true] at h
      have h' := Option.some.inj h
      subst h'
      simp [hx.1, hx.2]
    · simp only [hx, if_false] at h
      obtain ⟨h1, h2, h3⟩ := ih h
      exact ⟨h1, h2, by simp [h3]⟩

/-- With pairwise distinct `(event, from)` pairs, an entry of the table is the entry
of the built graph under its key. -/
theorem entryAt_foldl_of_mem (e f : String) (k : Transition) (cb : Option Callback) :
    ∀ (table : Table),
      table.Pairwise (fun a b => ¬ (a.1.Event = b.1.Event ∧ a.1.From = b.1.From)) →
      (k, cb) ∈ table → k.Event = e → k.From = f →
      entryAt (table.foldl NewFSM.step GoMap.make) e f = some ⟨k, cb⟩ := by
  intro table
  induction table using List.reverseRecOn with
  | nil => intro _ h; simp at h
  | append_singleton l x ih =>
    intro hp hm he hf
    rw [entryAt_foldl_append]
    rw [List.pairwise_append] at hp
    obtain ⟨hpl, _, hlx⟩ := hp
    by_cases hx : x.1.Event = e ∧ x.1.From = f
    · simp only [hx, and_self, if_true]
      rcases List.mem_append.1 hm with hl | hl
      · exact absurd ⟨he.trans hx.1.symm, hf.trans hx.2.symm⟩ (hlx _ hl x (by simp))
      · have hxk : (k, cb) = x := by simpa using hl
        subst hxk
        rfl
    · simp only [hx, if_false]
      rcases List.mem_append.1 hm with hl | hl
      · exact ih hpl hl he hf
      · have hxk : (k, cb) = x := by simpa using hl
        subst hxk
        exact absurd ⟨he, hf⟩ hx

/-- The loop carries the table along beside the fold of `NewFSM.step`. -/
theorem NewFSM_loop_fst (table : Table) : ∀ (l : Table) (g : GoMap (GoMap next)),
    l.foldl (fun (st : GoMap (GoMap next) × Table) entry => (NewFSM.step st.1 entry, st.2))
      (g, table) = (l.foldl NewFSM.step g, table) := by
  intro l
  induction l with
  | nil => intro g; rfl
  | cons x l ih => intro g; simp [List.foldl_cons, ih]

theorem NewFSM_graph (async : Bool) (state : String) (table : Table) :
    (NewFSM async state table).graph = table.foldl NewFSM.step GoMap.make := by
  have h : (NewFSM.loop table).1 = table.foldl NewFSM.step GoMap.make := by
    simp [NewFSM.loop, NewFSM_loop_fst]
  cases async <;> exact h

/-- C10: for a table in which no two entries share the same `(event, from)` pair, the
graph built by `NewFSM` has an entry under `graph[e][f]` if and only if the table has
an entry whose key is `(e, f, t)` for some `t`, and the graph entry under `graph[e][f]`
is then exactly that key together with exactly that table entry's callback (`none`
when the callback is nil). -/
theorem NewFSM_graph_entries (async : Bool) (state : String) (table : Table)
    (hkeys : table.Pairwise (fun a b => ¬ (a.1.Event = b.1.Event ∧ a.1.From = b.1.From)))
    (e f : String) :
    ((∃ nx, entryAt (NewFSM async state table).graph e f = some nx)
        ↔ ∃ t cb, ((⟨e, f, t⟩ : Transition), cb) ∈ table)
    ∧ ∀ t cb, ((⟨e, f, t⟩ : Transition), cb) ∈ table →
        entryAt (NewFSM async state table).graph e f = some ⟨⟨e, f, t⟩, cb⟩ := by
  rw [NewFSM_graph]
  have hmem : ∀ t cb, ((⟨e, f, t⟩ : Transition), cb) ∈ table →
      entryAt (table.foldl NewFSM.step GoMap.make) e f = some ⟨⟨e, f, t⟩, cb⟩ :=
    fun t cb h => entryAt_foldl_of_mem e f ⟨e, f, t⟩ cb table hkeys h rfl rfl
  refine ⟨⟨?_, ?_⟩, hmem⟩
  · rintro ⟨nx, h⟩
    obtain ⟨h1, h2, h3⟩ := entryAt_foldl_mem e f nx table h
    refine ⟨nx.transition.To, nx.callback, ?_⟩
    have hk : (⟨e, f, nx.transition.To⟩ : Transition) = nx.transition := by
      cases hnx : nx.transition
      simp_all
    rw [hk]; exact h3
  · rintro ⟨t, cb, h⟩
    exact ⟨_, hmem t cb h⟩

/-- C10 at a concrete table: the two entries of `switchTable` have different
`(event, from)` pairs; the graph has under `(off, running)` exactly the entry of the
table. -/
theorem NewFSM_graph_entries_witness :
    switchTable.Pairwise (fun a b => ¬ (a.1.Event = b.1.Event ∧ a.1.From = b.1.From))
    ∧ (((∃ nx, entryAt (NewFSM true "idle" switchTable).graph "off" "running" = some nx)
          ↔ ∃ t cb, ((⟨"off", "running", t⟩ : Transition), cb) ∈ switchTable)
      ∧ ∀ t cb, ((⟨"off", "running", t⟩ : Transition), cb) ∈ switchTable →
          entryAt (NewFSM true "idle" switchTable).graph "off" "running"
            = some ⟨⟨"off", "running", t⟩, cb⟩) :=
  ⟨by simp [switchTable],
    NewFSM_graph_entries true "idle" switchTable (by simp [switchTable]) "off" "running"⟩

/-! ## Construction -/

/-- C11: `NewFSM` is total: it is a function of the flag, the initial state and the
table with no error result, defined on every table (the empty table, which also
stands for the nil table, included). The engine it yields has the given initial state
as its current state; its guard is present if and only if the flag is true, and then
its slot is free; the loop it runs leaves the table it ranges over as it was handed
in, and the engine's graph is the graph that loop built. On the empty table the graph
is empty and the engine rejects every event with the event-not-found error. -/
theorem NewFSM_total (async : Bool) (state : String) (table : Table) :
    (NewFSM async state table).state = state
    ∧ ((NewFSM async state table).mx.isSome = true ↔ async = true)
    ∧ (NewFSM async state table).mx = (if async then some false else none)
    ∧ (NewFSM.loop table).2 = table
    ∧ (NewFSM async state table).graph = (NewFSM.loop table).1
    ∧ (NewFSM async state []).graph = GoMap.make
    ∧ ∀ n e, Trigger (n + 1) (NewFSM async state []) e
        = some ⟨NewFSM async state [],
            .returned (some (Errorf ("event not found: " ++ e))), []⟩ := by
  refine ⟨?_, ?_, ?_, ?_, ?_, ?_, ?_⟩
  · cases async <;> rfl
  · cases async <;> simp [NewFSM]
  · cases async <;> rfl
  · simp [NewFSM.loop, NewFSM_loop_fst]
  · cases async <;> rfl
  · cases async <;> rfl
  · intro n e
    have hfree : (NewFSM async state []).mx ≠ some true := by
      cases async <;> simp [NewFSM]
    rw [Trigger_free n _ e hfree]
    have hg : (NewFSM async state []).graph e = none := by
      cases async <;> rfl
    simp only [hg]

/-- The loop leaves an entry alone when none of the entries it processes has its key. -/
theorem entryAt_foldl_of_no_key (e f : String) : ∀ (l : Table) (g : GoMap (GoMap next)),
    (∀ x ∈ l, ¬ keyed e f x) → entryAt (l.foldl NewFSM.step g) e f = entryAt g e f := by
  intro l
  induction l with
  | nil => intro g _; rfl
  | cons x l ih =>
    intro g h
    rw [List.foldl_cons, ih _ (fun y hy => h y (List.mem_cons_of_mem _ hy)), entryAt_step]
    have hx : ¬ (x.1.Event = e ∧ x.1.From = f) := h x (List.mem_cons_self _ _)
    simp [hx]

/-- C14: when the entries are processed in the order `pre`, then `b`, then `post`, and
`b` is the last processed entry with the pair `(e, f)` (no entry of `post` has it),
the graph built by `NewFSM` holds under `graph[e][f]` exactly the key and the callback
of `b`, whatever entries with the same pair were processed before it: an earlier
entry `a` with that pair and a different destination or callback leaves nothing. -/
theorem NewFSM_last_wins (async : Bool) (state : String) (pre post : Table)
    (b : Transition × Option Callback) (e f : String)
    (hb : keyed e f b) (hpost : ∀ x ∈ post, ¬ keyed e f x) :
    entryAt (NewFSM async state (pre ++ [b] ++ post)).graph e f = some ⟨b.1, b.2⟩
    ∧ ∀ a ∈ pre, keyed e f a → (a.1.To ≠ b.1.To ∨ a.2 ≠ b.2) →
        entryAt (NewFSM async state (pre ++ [b] ++ post)).graph e f
          ≠ some ⟨a.1, a.2⟩ := by
  have h : entryAt (NewFSM async state (pre ++ [b] ++ post)).graph e f = some ⟨b.1, b.2⟩ := by
    rw [NewFSM_graph, List.foldl_append, entryAt_foldl_of_no_key e f post _ hpost,
      entryAt_foldl_append]
    have hb' : b.1.Event = e ∧ b.1.From = f := hb
    simp [hb']
  refine ⟨h, ?_⟩
  intro a _ _ hne hc
  rw [h] at hc
  have hc' := Option.some.inj hc
  have h1 : b.1 = a.1 := congrArg next.transition hc'
  have h2 : b.2 = a.2 := congrArg next.callback hc'
  rcases hne with hne | hne
  · exact hne (by rw [h1])
  · exact hne h2.symm

/-- C14 at a concrete table: `(on, idle, running)` without a callback is processed
first and `(on, idle, broken)` with a callback last; the graph holds the second. -/
theorem NewFSM_last_wins_witness :
    keyed "on" "idle" (⟨"on", "idle", "broken"⟩, some doorCb)
    ∧ (∀ x ∈ ([] : Table), ¬ keyed "on" "idle" x)
    ∧ (entryAt (NewFSM false "idle"
          ([(⟨"on", "idle", "running"⟩, none)] ++ [(⟨"on", "idle", "broken"⟩, some doorCb)]
            ++ [])).graph "on" "idle"
        = some ⟨⟨"on", "idle", "broken"⟩, some doorCb⟩
      ∧ ∀ a ∈ ([(⟨"on", "idle", "running"⟩, none)] : Table), keyed "on" "idle" a →
          (a.1.To ≠ "broken" ∨ a.2 ≠ some doorCb) →
          entryAt (NewFSM false "idle"
            ([(⟨"on", "idle", "running"⟩, none)] ++ [(⟨"on", "idle", "broken"⟩, some doorCb)]
              ++ [])).graph "on" "idle" ≠ some ⟨a.1, a.2⟩) :=
  ⟨⟨rfl, rfl⟩, by simp,
    NewFSM_last_wins false "idle" [(⟨"on", "idle", "running"⟩, none)] []
      (⟨"on", "idle", "broken"⟩, some doorCb) "on" "idle" ⟨rfl, rfl⟩ (by simp)⟩

/-! ## Independence of the processing order -/

/-- The row of an event is missing from the built graph exactly when it was missing
at the start and no processed entry has that event. -/
theorem foldl_step_eq_none (e : String) : ∀ (l : Table) (g : GoMap (GoMap next)),
    (l.foldl NewFSM.step g) e = none ↔ g e = none ∧ ∀ x ∈ l, x.1.Event ≠ e := by
  intro l
  induction l with
  | nil => intro g; simp
  | cons x l ih =>
    intro g
    rw [List.foldl_cons, ih]
    have hstep : (NewFSM.step g x) e = none ↔ g e = none ∧ x.1.Event ≠ e := by
      unfold NewFSM.step GoMap.set
      by_cases he : e = x.1.Event
      · simp [he]
      · have he' : ¬ x.1.Event = e := fun h => he h.symm
        simp [he, he']
    rw [hstep]
    simp only [List.mem_cons, forall_eq_or_imp]
    tauto

/-- With pairwise distinct `(event, from)` pairs the entry under a key is the same
for any two orders of the same entries. -/
theorem entryAt_foldl_perm (e f : String) (t1 t2 : Table) (hk : distinctKeys t1)
    (hp : t1.Perm t2) :
    entryAt (t1.foldl NewFSM.step GoMap.make) e f
      = entryAt (t2.foldl NewFSM.step GoMap.make) e f := by
  have hk2 : distinctKeys t2 :=
    (hp.pairwise_iff (fun {a b} h h' => h ⟨h'.1.symm, h'.2.symm⟩)).1 hk
  cases h1 : entryAt (t1.foldl NewFSM.step GoMap.make) e f with
  | none =>
    cases h2 : entryAt (t2.foldl NewFSM.step GoMap.make) e f with
    | none => rfl
    | some nx =>
      obtain ⟨he, hf, hm⟩ := entryAt_foldl_mem e f nx t2 h2
      have := entryAt_foldl_of_mem e f nx.transition nx.callback t1 hk (hp.mem_iff.2 hm) he hf
      rw [h1] at this
      exact absurd this (by simp)
  | some nx =>
    obtain ⟨he, hf, hm⟩ := entryAt_foldl_mem e f nx t1 h1
    rw [entryAt_foldl_of_mem e f nx.transition nx.callback t2 hk2 (hp.mem_iff.1 hm) he hf]

/-- A row of a graph is the function of its entries. -/
theorem row_eq_entryAt (g : GoMap (GoMap next)) (e : String) (vx : GoMap next)
    (h : g e = some vx) : vx = fun f => entryAt g e f := by
  funext f
  simp [entryAt, h]

/-- C20: for a table in which no two entries share the same `(event, from)` pair,
`NewFSM` builds the same graph, and so the same engine, whatever order the entries are
processed in: any two permutations of the entries give equal graphs and equal
engines, hence equal results of every `Trigger` call. -/
theorem NewFSM_perm (async : Bool) (state : String) (t1 t2 : Table)
    (hk : distinctKeys t1) (hp : t1.Perm t2) :
    (NewFSM async state t1).graph = (NewFSM async state t2).graph
    ∧ NewFSM async state t1 = NewFSM async state t2
    ∧ ∀ n e, Trigger n (NewFSM async state t1) e = Trigger n (NewFSM async state t2) e := by
  have hg : (NewFSM async state t1).graph = (NewFSM async state t2).graph := by
    rw [NewFSM_graph, NewFSM_graph]
    funext e
    cases h1 : (t1.foldl NewFSM.step GoMap.make) e with
    | none =>
      have h := (foldl_step_eq_none e t1 GoMap.make).1 h1
      exact ((foldl_step_eq_none e t2 GoMap.make).2
        ⟨h.1, fun x hx => h.2 x (hp.mem_iff.2 hx)⟩).symm
    | some v1 =>
      cases h2 : (t2.foldl NewFSM.step GoMap.make) e with
      | none =>
        have h := (foldl_step_eq_none e t2 GoMap.make).1 h2
        have := (foldl_step_eq_none e t1 GoMap.make).2
          ⟨h.1, fun x hx => h.2 x (hp.mem_iff.1 hx)⟩
        rw [h1] at this
        exact absurd this (by simp)
      | some v2 =>
        rw [row_eq_entryAt _ e v1 h1, row_eq_entryAt _ e v2 h2]
        congr 1
        funext f
        exact entryAt_foldl_perm e f t1 t2 hk hp
  have heq : NewFSM async state t1 = NewFSM async state t2 := by
    cases async
    · simpa [NewFSM] using hg
    · simpa [NewFSM] using hg
  exact ⟨hg, heq, fun n e => by rw [heq]⟩

/-- C20 at a concrete table: the two entries of `switchTable` in either order. -/
theorem NewFSM_perm_witness :
    distinctKeys switchTable ∧ switchTable.Perm switchTableRev
    ∧ ((NewFSM true "idle" switchTable).graph = (NewFSM true "idle" switchTableRev).graph
      ∧ NewFSM true "idle" switchTable = NewFSM true "idle" switchTableRev
      ∧ ∀ n e, Trigger n (NewFSM true "idle" switchTable) e
          = Trigger n (NewFSM true "idle" switchTableRev) e) :=
  ⟨by simp [distinctKeys, switchTable], List.Perm.swap _ _ _,
    NewFSM_perm true "idle" switchTable switchTableRev (by simp [distinctKeys, switchTable])
      (List.Perm.swap _ _ _)⟩

/-! ## What the callbacks are handed, and the states an engine visits -/

theorem lookup_eq_entryAt (sm : FSM) (e : String) :
    sm.lookup e = entryAt sm.graph e sm.state := rfl

/-- C18: in an engine built by `NewFSM` from any table, every entry stored under
`graph[e][f]` has `transition.Event = e` and `transition.From = f`; consequently, on
any engine with that graph, when `Trigger ev` from the state `s` invokes a callback,
the first callback invoked is the one of the entry `graph[ev][s]`, its body is run on
that same engine (with the slot taken when guarded), and the transition it is handed
has `Event = ev` and `From = s`. -/
theorem NewFSM_entries_keyed (async : Bool) (state : String) (table : Table)
    (e f : String) (nx : next) (n : Nat) (sm : FSM) (ev : String) (r : Result) :
    (entryAt (NewFSM async state table).graph e f = some nx →
      nx.transition.Event = e ∧ nx.transition.From = f)
    ∧ (sm.graph = (NewFSM async state table).graph → Trigger (n + 1) sm ev = some r →
        ∀ tr rest, r.calls = tr :: rest →
          tr.Event = ev ∧ tr.From = sm.state
          ∧ ∃ nx' cb d, sm.lookup ev = some nx' ∧ nx'.callback = some cb
              ∧ nx'.transition = tr
              ∧ Prog.run (Trigger n) (cb tr) (lock sm.mx.isSome sm) = some d
              ∧ rest = d.calls) := by
  constructor
  · intro h
    rw [NewFSM_graph] at h
    obtain ⟨h1, h2, _⟩ := entryAt_foldl_mem e f nx table h
    exact ⟨h1, h2⟩
  · intro hg h tr rest hcalls
    by_cases hmx : sm.mx = some true
    · rw [Trigger_held n sm ev hmx] at h
      obtain rfl := Option.some.inj h
      simp at hcalls
    · rw [Trigger_free n sm ev hmx] at h
      cases hge : sm.graph ev with
      | none =>
        simp only [hge] at h
        obtain rfl := Option.some.inj h
        simp at hcalls
      | some vx =>
        cases hs : vx sm.state with
        | none =>
          simp only [hge, hs] at h
          obtain rfl := Option.some.inj h
          simp at hcalls
        | some nx' =>
          cases hc : nx'.callback with
          | none =>
            simp only [hge, hs, hc] at h
            obtain rfl := Option.some.inj h
            simp at hcalls
          | some cb =>
            simp only [hge, hs, hc] at h
            cases hd : Prog.run (Trigger n) (cb nx'.transition) (lock sm.mx.isSome sm) with
            | none => simp [hd] at h
            | some d =>
              simp only [hd] at h
              obtain rfl := Option.some.inj h
              simp only [List.cons.injEq] at hcalls
              obtain ⟨htr, hrest⟩ := hcalls
              subst htr
              have hl : sm.lookup ev = some nx' := by
                simp [FSM.lookup, hge, hs]
              have hent : entryAt (NewFSM async state table).graph ev sm.state = some nx' := by
                rw [← hg, ← lookup_eq_entryAt]; exact hl
              rw [NewFSM_graph] at hent
              obtain ⟨h1, h2, _⟩ := entryAt_foldl_mem ev sm.state nx' table hent
              exact ⟨h1, h2, nx', cb, d, hl, hc, rfl, hd, hrest.symm⟩

/-- C18 at a concrete engine: the door engine, whose `Trigger "open"` from `closed`
invokes the callback with the transition `(open, closed, open)`. -/
theorem NewFSM_entries_keyed_witness :
    entryAt (NewFSM false "closed" doorTable).graph "open" "closed"
        = some ⟨⟨"open", "closed", "open"⟩, some doorCb⟩
    ∧ ((⟨⟨"open", "closed", "open"⟩, some doorCb⟩ : next).transition.Event = "open"
      ∧ (⟨⟨"open", "closed", "open"⟩, some doorCb⟩ : next).transition.From = "closed")
    ∧ (NewFSM false "closed" doorTable).graph = (NewFSM false "closed" doorTable).graph
    ∧ Trigger 1 (NewFSM false "closed" doorTable) "open"
        = some ⟨{ NewFSM false "closed" doorTable with state := "open" }, .returned none,
            [⟨"open", "closed", "open"⟩]⟩
    ∧ (∀ tr rest, [(⟨"open", "closed", "open"⟩ : Transition)] = tr :: rest →
          tr.Event = "open" ∧ tr.From = (NewFSM false "closed" doorTable).state
          ∧ ∃ nx' cb d, (NewFSM false "closed" doorTable).lookup "open" = some nx'
              ∧ nx'.callback = some cb ∧ nx'.transition = tr
              ∧ Prog.run (Trigger 0) (cb tr)
                  (lock (NewFSM false "closed" doorTable).mx.isSome
                    (NewFSM false "closed" doorTable)) = some d
              ∧ rest = d.calls) :=
  ⟨rfl,
    (NewFSM_entries_keyed false "closed" doorTable "open" "closed"
      ⟨⟨"open", "closed", "open"⟩, some doorCb⟩ 0 (NewFSM false "closed" doorTable) "open"
      ⟨{ NewFSM false "closed" doorTable with state := "open" }, .returned none,
        [⟨"open", "closed", "open"⟩]⟩).1 rfl,
    rfl, rfl,
    (NewFSM_entries_keyed false "closed" doorTable "open" "closed"
      ⟨⟨"open", "closed", "open"⟩, some doorCb⟩ 0 (NewFSM false "closed" doorTable) "open"
      ⟨{ NewFSM false "closed" doorTable with state := "open" }, .returned none,
        [⟨"open", "closed", "open"⟩]⟩).2 rfl rfl⟩

/-- One call on an engine with the graph of a callback-free table: the call returns,
the guard and graph stay, and the state stays or becomes the `To` of a table entry. -/
theorem Trigger_callback_free_step (async : Bool) (state : String) (table : Table)
    (hnil : ∀ x ∈ table, x.2 = none) (n : Nat) (sm : FSM) (e : String)
    (hg : sm.graph = (NewFSM async state table).graph)
    (hmx : sm.mx = (NewFSM async state table).mx) :
    ∃ r, Trigger (n + 1) sm e = some r
      ∧ r.sm.graph = sm.graph ∧ r.sm.mx = sm.mx
      ∧ (r.sm.state = sm.state ∨ ∃ x ∈ table, r.sm.state = x.1.To) := by
  have hfree : sm.mx ≠ some true := by
    rw [hmx]; cases async <;> simp [NewFSM]
  rw [Trigger_free n sm e hfree]
  cases hge : sm.graph e with
  | none => exact ⟨_, rfl, rfl, rfl, Or.inl rfl⟩
  | some vx =>
    cases hs : vx sm.state with
    | none =>
      simp only [hs]
      exact ⟨_, rfl, rfl, rfl, Or.inl rfl⟩
    | some nx =>
      simp only [hs]
      have hent : entryAt (table.foldl NewFSM.step GoMap.make) e sm.state = some nx := by
        rw [← NewFSM_graph async state table, ← hg]
        simp [entryAt, hge, hs]
      obtain ⟨_, _, hmem⟩ := entryAt_foldl_mem e sm.state nx table hent
      have hc : nx.callback = none := hnil _ hmem
      simp only [hc]
      exact ⟨_, rfl, rfl, rfl, Or.inr ⟨_, hmem, rfl⟩⟩

/-- Any sequence of calls from an engine that has the graph and guard of a
callback-free construction and a state within the initial state and the `To`s. -/
theorem TriggerSeq_callback_free (async : Bool) (state : String) (table : Table)
    (hnil : ∀ x ∈ table, x.2 = none) (n : Nat) : ∀ (events : List String) (sm : FSM),
    sm.graph = (NewFSM async state table).graph →
    sm.mx = (NewFSM async state table).mx →
    (sm.state = state ∨ ∃ x ∈ table, sm.state = x.1.To) →
    ∃ sm', TriggerSeq (n + 1) sm events = some sm'
      ∧ (sm'.state = state ∨ ∃ x ∈ table, sm'.state = x.1.To)
      ∧ sm'.graph = (NewFSM async state table).graph
      ∧ sm'.mx = (NewFSM async state table).mx := by
  intro events
  induction events with
  | nil => intro sm hg hmx hst; exact ⟨sm, rfl, hst, hg, hmx⟩
  | cons e es ih =>
    intro sm hg hmx hst
    obtain ⟨r, hr, hrg, hrmx, hrst⟩ :=
      Trigger_callback_free_step async state table hnil n sm e hg hmx
    have hst' : r.sm.state = state ∨ ∃ x ∈ table, r.sm.state = x.1.To := by
      rcases hrst with h | h
      · rw [h]; exact hst
      · exact Or.inr h
    obtain ⟨sm', h1, h2⟩ := ih r.sm (hrg.trans hg) (hrmx.trans hmx) hst'
    exact ⟨sm', by simp [TriggerSeq, hr, h1], h2⟩

/-- C19: for every table whose callbacks are all absent, every initial state and every
finite sequence of `Trigger` calls on the engine `NewFSM` builds from them, after each
call of the sequence (after the first `k` calls, for every `k`) the calls so far have
all returned, the current state is the initial state or the `To` of some entry of the
table, and the graph and the guard are the same as right after construction. -/
theorem TriggerSeq_states (async : Bool) (state : String) (table : Table) (n k : Nat)
    (events : List String) (hnil : ∀ x ∈ table, x.2 = none) :
    ∃ sm, TriggerSeq (n + 1) (NewFSM async state table) (events.take k) = some sm
      ∧ (sm.state = state ∨ ∃ x ∈ table, sm.state = x.1.To)
      ∧ sm.graph = (NewFSM async state table).graph
      ∧ sm.mx = (NewFSM async state table).mx :=
  TriggerSeq_callback_free async state table hnil n (events.take k)
    (NewFSM async state table) rfl rfl (Or.inl (by cases async <;> rfl))

/-- C19 at a concrete engine: table `{(on, idle, running): nil}`, initial state `idle`,
the calls `on`, `off`, `on`; after the first two the state is `running`. -/
theorem TriggerSeq_states_witness :
    (∀ x ∈ onTable, x.2 = none)
    ∧ (∃ sm, TriggerSeq 1 (NewFSM true "idle" onTable) (["on", "off", "on"].take 2) = some sm
        ∧ (sm.state = "idle" ∨ ∃ x ∈ onTable, sm.state = x.1.To)
        ∧ sm.graph = (NewFSM true "idle" onTable).graph
        ∧ sm.mx = (NewFSM true "idle" onTable).mx)
    ∧ TriggerSeq 1 (NewFSM true "idle" onTable) (["on", "off", "on"].take 2)
        = some { NewFSM true "idle" onTable with state := "running" } :=
  ⟨by simp [onTable],
    TriggerSeq_states true "idle" onTable 0 2 ["on", "off", "on"] (by simp [onTable]), rfl⟩

/-! ## Panicking, restoring and re-entering callbacks -/

/-- C15: for a call that gets past the guard and matches a transition `(e, s, t)`
whose callback panics with the value `v` instead of returning, the call unwinds with
that panic and the auto-advance has still run: the state is `t` if the callback left
it equal to `s` and is as the callback left it otherwise; the guard is as before the
call, so on a guarded engine the slot is free once the call has unwound. -/
theorem Trigger_callback_panics (n : Nat) (sm : FSM) (e : String) (vx : GoMap next)
    (nx : next) (cb : Callback) (d : Done) (v : String)
    (hmx : sm.mx ≠ some true) (hg : sm.graph e = some vx) (hs : vx sm.state = some nx)
    (hcb : nx.callback = some cb)
    (hrun : Prog.run (Trigger n) (cb nx.transition) (lock sm.mx.isSome sm) = some d)
    (hp : d.panicv = some v) :
    ∃ r, Trigger (n + 1) sm e = some r ∧ r.out = .panicked v
      ∧ r.sm.state = (if d.sm.state = sm.state then nx.transition.To else d.sm.state)
      ∧ r.sm.mx = sm.mx ∧ (sm.mx.isSome = true → r.sm.mx = some false)
      ∧ r.sm.graph = sm.graph := by
  refine ⟨_, Trigger_matched_callback n sm e vx nx cb d hmx hg hs hcb hrun, ?_, rfl, rfl,
    ?_, rfl⟩
  · simp [hp]
  · intro h
    cases hm : sm.mx with
    | none => simp [hm] at h
    | some b =>
      cases b with
      | true => exact absurd hm hmx
      | false => rfl

/-- C15 at a concrete engine: guarded, table `{(go, s, t): cb}` with a callback that
panics without touching the state; the call unwinds with the panic, the state is `t`
and the slot is free. -/
theorem Trigger_callback_panics_witness :
    (NewFSM true "s" panicTable).mx ≠ some true
    ∧ (NewFSM true "s" panicTable).graph "go" = some (row ⟨"go", "s", "t"⟩ (some panicCb))
    ∧ row ⟨"go", "s", "t"⟩ (some panicCb) (NewFSM true "s" panicTable).state
        = some ⟨⟨"go", "s", "t"⟩, some panicCb⟩
    ∧ Prog.run (Trigger 0) (panicCb ⟨"go", "s", "t"⟩)
        (lock (NewFSM true "s" panicTable).mx.isSome (NewFSM true "s" panicTable))
        = some ⟨lock true (NewFSM true "s" panicTable), some "boom", []⟩
    ∧ (∃ r, Trigger 1 (NewFSM true "s" panicTable) "go" = some r ∧ r.out = .panicked "boom"
        ∧ r.sm.state = (if (lock true (NewFSM true "s" panicTable)).state
              = (NewFSM true "s" panicTable).state then "t"
            else (lock true (NewFSM true "s" panicTable)).state)
        ∧ r.sm.mx = (NewFSM true "s" panicTable).mx
        ∧ ((NewFSM true "s" panicTable).mx.isSome = true → r.sm.mx = some false)
        ∧ r.sm.graph = (NewFSM true "s" panicTable).graph)
    ∧ Trigger 1 (NewFSM true "s" panicTable) "go"
        = some ⟨{ NewFSM true "s" panicTable with state := "t" }, .panicked "boom",
            [⟨"go", "s", "t"⟩]⟩ :=
  ⟨by decide, rfl, rfl, rfl,
    Trigger_callback_panics 0 (NewFSM true "s" panicTable) "go"
      (row ⟨"go", "s", "t"⟩ (some panicCb)) ⟨⟨"go", "s", "t"⟩, some panicCb⟩ panicCb
      ⟨lock true (NewFSM true "s" panicTable), some "boom", []⟩ "boom"
      (by decide) rfl rfl rfl rfl rfl,
    rfl⟩

/-- C16: the auto-advance looks only at the state the callback leaves behind. For a
call that gets past the guard and matches a transition `(e, s, t)` whose callback
first sets the state to a value `x` (any value, in particular one other than `s`),
then runs on and returns with the state back at `s`, `Trigger e` returns no error and ends in the declared destination
`t`, with the same result and final state as the same engine with a callback that
just returns in its place. -/
theorem Trigger_callback_restores (n : Nat) (sm : FSM) (e : String) (vx : GoMap next)
    (nx : next) (cb : Callback) (x : String) (p : Prog) (d : Done)
    (hmx : sm.mx ≠ some true) (hg : sm.graph e = some vx) (hs : vx sm.state = some nx)
    (hcb : nx.callback = some cb) (hbody : cb nx.transition = .setState x p)
    (hrun : Prog.run (Trigger n) p { (lock sm.mx.isSome sm) with state := x } = some d)
    (hret : d.panicv = none) (hst : d.sm.state = sm.state) :
    Trigger (n + 1) sm e
      = some ⟨{ sm with state := nx.transition.To }, .returned none, nx.transition :: d.calls⟩
    ∧ Trigger (n + 1) (replaceCallback sm e vx nx (some (fun _ => .ret))) e
      = some ⟨{ (replaceCallback sm e vx nx (some (fun _ => .ret))) with
                  state := nx.transition.To }, .returned none, [nx.transition]⟩ := by
  constructor
  · have hrun' : Prog.run (Trigger n) (cb nx.transition) (lock sm.mx.isSome sm) = some d := by
      rw [hbody]; simpa [Prog.run] using hrun
    rw [Trigger_matched_callback n sm e vx nx cb d hmx hg hs hcb hrun']
    simp [hret, hst]
  · have h := Trigger_matched_callback n (replaceCallback sm e vx nx (some (fun _ => .ret))) e
      (vx.set sm.state ⟨nx.transition, some (fun _ => .ret)⟩)
      ⟨nx.transition, some (fun _ => .ret)⟩ (fun _ => .ret)
      ⟨lock sm.mx.isSome (replaceCallback sm e vx nx (some (fun _ => .ret))), none, []⟩
      hmx (by simp [replaceCallback, GoMap.set]) (by simp [replaceCallback, GoMap.set])
      rfl rfl
    rw [h]
    simp [replaceCallback]

/-- C16 at a concrete engine: table `{(go, s, t): cb}` where `cb` sets the state to `x`
and then back to `s`; `Trigger "go"` ends in `t`. -/
theorem Trigger_callback_restores_witness :
    (NewFSM false "s" restoreTable).mx ≠ some true
    ∧ (NewFSM false "s" restoreTable).graph "go"
        = some (row ⟨"go", "s", "t"⟩ (some restoreCb))
    ∧ row ⟨"go", "s", "t"⟩ (some restoreCb) (NewFSM false "s" restoreTable).state
        = some ⟨⟨"go", "s", "t"⟩, some restoreCb⟩
    ∧ restoreCb ⟨"go", "s", "t"⟩ = .setState "x" (.setState "s" .ret)
    ∧ "x" ≠ (NewFSM false "s" restoreTable).state
    ∧ Prog.run (Trigger 0) (.setState "s" .ret)
        { (lock (NewFSM false "s" restoreTable).mx.isSome (NewFSM false "s" restoreTable))
          with state := "x" }
        = some ⟨NewFSM false "s" restoreTable, none, []⟩
    ∧ Trigger 1 (NewFSM false "s" restoreTable) "go"
        = some ⟨{ NewFSM false "s" restoreTable with state := "t" }, .returned none,
            [⟨"go", "s", "t"⟩]⟩ :=
  ⟨by decide, rfl, rfl, rfl, by decide, rfl,
    (Trigger_callback_restores 0 (NewFSM false "s" restoreTable) "go"
      (row ⟨"go", "s", "t"⟩ (some restoreCb)) ⟨⟨"go", "s", "t"⟩, some restoreCb⟩ restoreCb
      "x" (.setState "s" .ret) ⟨NewFSM false "s" restoreTable, none, []⟩
      (by decide) rfl rfl rfl rfl rfl rfl rfl).1⟩

theorem entryAt_eq_some (g : GoMap (GoMap next)) (e f : String) (nx : next) :
    entryAt g e f = some nx ↔ ∃ vx, g e = some vx ∧ vx f = some nx := by
  unfold entryAt
  cases g e <;> simp

/-- C17 as stated fails when the table has a further entry with the pair `(a, s)` that
is processed last: the unguarded engine is built from a table containing `(a, s, t)`
with a callback that calls `Trigger("b")` and `(b, s, u)` without a callback, with `u`
other than `s`, yet `Trigger "a"` from `s` invokes no callback, makes no nested call
and ends in `v`, not in `u`. It also fails when `b` is `a` itself and the entry with
the callback is processed last: the callback re-enters its own transition and the
call returns within no nesting bound. -/
theorem Trigger_nested_unguarded_counterexample :
    ((⟨"a", "s", "t"⟩ : Transition), some (reentrantCb "b")) ∈ nestedTableDup
    ∧ ((⟨"b", "s", "u"⟩ : Transition), (none : Option Callback)) ∈ nestedTableDup
    ∧ reentrantCb "b" ⟨"a", "s", "t"⟩ = .trigger "b" (fun _ => .ret)
    ∧ "u" ≠ "s"
    ∧ (NewFSM false "s" nestedTableDup).mx = none
    ∧ (NewFSM false "s" nestedTableDup).state = "s"
    ∧ Trigger 2 (NewFSM false "s" nestedTableDup) "a"
        = some ⟨{ NewFSM false "s" nestedTableDup with state := "v" }, .returned none, []⟩
    ∧ "v" ≠ "u"
    ∧ (¬ ∃ r, Trigger 2 (NewFSM false "s" nestedTableDup) "a" = some r ∧ r.sm.state = "u")
    ∧ ((⟨"a", "s", "t"⟩ : Transition), some (reentrantCb "a")) ∈ selfTable
    ∧ ((⟨"a", "s", "u"⟩ : Transition), (none : Option Callback)) ∈ selfTable
    ∧ reentrantCb "a" ⟨"a", "s", "t"⟩ = .trigger "a" (fun _ => .ret)
    ∧ ∀ n, Trigger n (NewFSM false "s" selfTable) "a" = none :=
  ⟨by simp [nestedTableDup], by simp [nestedTableDup], rfl, by decide, rfl, rfl, rfl,
    by decide, by
    rintro ⟨r, h, hst⟩
    have h0 : Trigger 2 (NewFSM false "s" nestedTableDup) "a"
        = some ⟨{ NewFSM false "s" nestedTableDup with state := "v" }, .returned none, []⟩ :=
      rfl
    rw [h0] at h
    obtain rfl := Option.some.inj h
    revert hst
    decide,
    by simp [selfTable], by simp [selfTable], rfl, by
    intro n
    induction n with
    | zero => rfl
    | succ n ih =>
      rw [Trigger_free n _ "a" (by decide)]
      have hg : (NewFSM false "s" selfTable).graph "a"
          = some ((row ⟨"a", "s", "u"⟩ none).set "s"
              ⟨⟨"a", "s", "t"⟩, some (reentrantCb "a")⟩) := rfl
      have hrun : Prog.run (Trigger n) (reentrantCb "a" ⟨"a", "s", "t"⟩)
          (lock (NewFSM false "s" selfTable).mx.isSome (NewFSM false "s" selfTable))
          = none := by
        show Prog.run (Trigger n) (.trigger "a" (fun _ => .ret)) (NewFSM false "s" selfTable)
          = none
        simp [Prog.run, ih]
      simp only [hg]
      have hs : ((row ⟨"a", "s", "u"⟩ none).set "s"
          (⟨⟨"a", "s", "t"⟩, some (reentrantCb "a")⟩ : next)) (NewFSM false "s" selfTable).state
          = some ⟨⟨"a", "s", "t"⟩, some (reentrantCb "a")⟩ := rfl
      simp only [hs, hrun]⟩

/-- C17, amended: for every unguarded engine in the state `s` whose graph `NewFSM`
built from a table in which no two entries share the same `(event, from)` pair and
which contains `(a, s, t)` with a callback that calls `Trigger(b)` on the same engine
and returns once that call has returned nil, and `(b, s, u)` with no callback, where
`u` differs from `s`: the nested `Trigger b` returns no error and moves the engine to
`u`, and `Trigger a` from `s` returns no error with the final state `u`, not the
declared destination `t` of `(a, s, t)`. -/
theorem Trigger_nested_unguarded (n : Nat) (table : Table) (st0 : String) (sm : FSM)
    (a b s t u : String) (cb : Callback) (k : Option error → Prog)
    (hkeys : distinctKeys table)
    (ha : ((⟨a, s, t⟩ : Transition), some cb) ∈ table)
    (hb : ((⟨b, s, u⟩ : Transition), (none : Option Callback)) ∈ table)
    (hbody : cb ⟨a, s, t⟩ = .trigger b k) (hk : k none = .ret) (hus : u ≠ s)
    (hg : sm.graph = (NewFSM false st0 table).graph) (hmx : sm.mx = none)
    (hst : sm.state = s) :
    Trigger (n + 1) sm b = some ⟨{ sm with state := u }, .returned none, []⟩
    ∧ Trigger (n + 2) sm a = some ⟨{ sm with state := u }, .returned none, [⟨a, s, t⟩]⟩ := by
  have hfree : sm.mx ≠ some true := by simp [hmx]
  have hea : entryAt sm.graph a sm.state = some ⟨⟨a, s, t⟩, some cb⟩ := by
    rw [hg, NewFSM_graph, hst]
    exact entryAt_foldl_of_mem a s ⟨a, s, t⟩ (some cb) table hkeys ha rfl rfl
  have heb : entryAt sm.graph b sm.state = some ⟨⟨b, s, u⟩, none⟩ := by
    rw [hg, NewFSM_graph, hst]
    exact entryAt_foldl_of_mem b s ⟨b, s, u⟩ none table hkeys hb rfl rfl
  obtain ⟨va, hga, hsa⟩ := (entryAt_eq_some _ _ _ _).1 hea
  obtain ⟨vb, hgb, hsb⟩ := (entryAt_eq_some _ _ _ _).1 heb
  have hnest : ∀ m, Trigger (m + 1) sm b
      = some ⟨{ sm with state := u }, .returned none, []⟩ := by
    intro m
    rw [Trigger_free m sm b hfree]
    simp [hgb, hsb]
  refine ⟨hnest n, ?_⟩
  have hrun : Prog.run (Trigger (n + 1)) (cb (⟨⟨a, s, t⟩, some cb⟩ : next).transition)
      (lock sm.mx.isSome sm) = some ⟨{ sm with state := u }, none, []⟩ := by
    have hl : lock sm.mx.isSome sm = sm := by simp [hmx, lock]
    rw [hl]
    show Prog.run (Trigger (n + 1)) (cb ⟨a, s, t⟩) sm = _
    rw [hbody]
    simp [Prog.run, hnest n, hk]
  rw [Trigger_matched_callback (n + 1) sm a va ⟨⟨a, s, t⟩, some cb⟩ cb _ hfree hga hsa rfl hrun]
  simp [hst, hus]

/-- C17 at a concrete engine: the table `{(a, s, t): cb, (b, s, u): nil}` where `cb`
calls `Trigger("b")`; `Trigger "a"` from `s` ends in `u`. -/
theorem Trigger_nested_unguarded_witness :
    distinctKeys nestedTable
    ∧ ((⟨"a", "s", "t"⟩ : Transition), some (reentrantCb "b")) ∈ nestedTable
    ∧ ((⟨"b", "s", "u"⟩ : Transition), (none : Option Callback)) ∈ nestedTable
    ∧ reentrantCb "b" ⟨"a", "s", "t"⟩ = .trigger "b" (fun _ => .ret)
    ∧ "u" ≠ "s"
    ∧ (NewFSM false "s" nestedTable).mx = none
    ∧ (NewFSM false "s" nestedTable).state = "s"
    ∧ (Trigger 1 (NewFSM false "s" nestedTable) "b"
        = some ⟨{ NewFSM false "s" nestedTable with state := "u" }, .returned none, []⟩
      ∧ Trigger 2 (NewFSM false "s" nestedTable) "a"
        = some ⟨{ NewFSM false "s" nestedTable with state := "u" }, .returned none,
            [⟨"a", "s", "t"⟩]⟩) :=
  ⟨by simp [distinctKeys, nestedTable], by simp [nestedTable], by simp [nestedTable], rfl,
    by decide, rfl, rfl,
    Trigger_nested_unguarded 0 nestedTable "s" (NewFSM false "s" nestedTable)
      "a" "b" "s" "t" "u" (reentrantCb "b") (fun _ => .ret)
      (by simp [distinctKeys, nestedTable]) (by simp [nestedTable]) (by simp [nestedTable])
      rfl rfl (by decide) rfl rfl rfl⟩

/-! ## The messages of the errors -/

/-- A format without `%` is rendered as it stands. -/
theorem fmtNoOperands_of_no_percent : ∀ (l : List Char), '%' ∉ l →
    fmtNoOperands l = some l := by
  intro l
  induction l with
  | nil => intro _; rfl
  | cons c rest ih =>
    intro h
    have hc : c ≠ '%' := fun hc => h (by simp [hc])
    have hr : '%' ∉ rest := fun hr => h (List.mem_cons_of_mem _ hr)
    rw [fmtNoOperands.eq_def]
    simp [hc, ih hr]

/-- When neither the event nor the state contains `%`, the no-state message is the
concatenation of line 39 as written, so it contains both verbatim. -/
theorem noState_message_of_no_percent (e st : String) (he : '%' ∉ e.data)
    (hst : '%' ∉ st.data) :
    (Errorf ("no state found for event: " ++ e ++ " current state: " ++ st)).Error
      = some ("no state found for event: " ++ e ++ " current state: " ++ st) := by
  unfold error.Error Errorf
  rw [fmtNoOperands_of_no_percent]
  · rfl
  · show '%' ∉ ("no state found for event: " ++ e ++ " current state: " ++ st).data
    rw [String.data_append, String.data_append, String.data_append]
    simp only [List.mem_append, not_or]
    exact ⟨⟨⟨by decide, he⟩, by decide⟩, hst⟩

/-- C12 fails on the code for names containing `%`: the event and the state are
spliced into the format string of `fmt.Errorf`. For the event `%d`, absent from the
graph, `Trigger` returns the error built from `"event not found: " + "%d"`, whose
message is `event not found: %!d(MISSING)` and does not contain `%d`; for the event
`on` from the state `%s`, the message is
`no state found for event: on current state: %!s(MISSING)` and does not contain `%s`. -/
theorem Trigger_error_message_percent :
    Trigger 1 (NewFSM false "idle" onTable) "%d"
      = some ⟨NewFSM false "idle" onTable,
          .returned (some (Errorf ("event not found: " ++ "%d"))), []⟩
    ∧ (Errorf ("event not found: " ++ "%d")).Error = some "event not found: %!d(MISSING)"
    ∧ ¬ ("%d".data <:+: "event not found: %!d(MISSING)".data)
    ∧ Trigger 1 (NewFSM false "%s" onTable) "on"
      = some ⟨NewFSM false "%s" onTable,
          .returned (some (Errorf ("no state found for event: " ++ "on"
            ++ " current state: " ++ "%s"))), []⟩
    ∧ (Errorf ("no state found for event: " ++ "on" ++ " current state: " ++ "%s")).Error
      = some "no state found for event: on current state: %!s(MISSING)"
    ∧ ¬ ("%s".data <:+: "no state found for event: on current state: %!s(MISSING)".data) :=
  ⟨rfl, by decide, by decide, rfl, by decide, by decide⟩

end ssfsm
